import Mathlib

set_option maxRecDepth 4000

/-!  Verification development for the ai-skill-generator core:
the evidence-based detection resolver (`src/detection/resolver.ts`),
the template renderer and expression evaluator
(`src/custom-templates/renderer.ts`), and the custom template validator
(`src/custom-templates/loader.ts`).  JavaScript strings are modelled as
`String`/`List Char`, JS objects as association lists, and the regex
operations of the source are modelled by explicit scanners with the same
match semantics. -/

namespace AISkill

/-- Whitespace test matching the JS `\s` class for the ASCII range used here. -/
def isWsC (c : Char) : Bool :=
  c == ' ' || c == '\t' || c == '\n' || c == '\r' || c == '\x0b' || c == '\x0c'

/-- Model of `String.prototype.trim`. -/
def trimChars (l : List Char) : List Char :=
  ((l.dropWhile isWsC).reverse.dropWhile isWsC).reverse

/-- Does `pre` occur at the start of the second list? -/
def hasPrefixC : List Char → List Char → Bool
  | [], _ => true
  | _ :: _, [] => false
  | a :: as, b :: bs => a == b && hasPrefixC as bs

/-- Does `needle` occur as a contiguous run? Models `String.prototype.includes`. -/
def hasInfixC (needle : List Char) : List Char → Bool
  | [] => needle.isEmpty
  | c :: rest => hasPrefixC needle (c :: rest) || hasInfixC needle rest

/-- Model of `hay.includes(needle)`. -/
def strIncludes (hay needle : String) : Bool := hasInfixC needle.data hay.data

/-- Model of `s.startsWith(pre)`. -/
def strStartsWith (s pre : String) : Bool := hasPrefixC pre.data s.data

/-- Model of `s.split(sep)` for a one-character separator. -/
def splitOnChar (sep : Char) : List Char → List (List Char)
  | [] => [[]]
  | c :: rest =>
    if c == sep then [] :: splitOnChar sep rest
    else
      match splitOnChar sep rest with
      | [] => [[c]]
      | p :: ps => (c :: p) :: ps

/-! ## Detection resolver data model (`src/detection/types.ts`) -/

/-- The three evidence categories of `DetectionEvidence.category`. -/
inductive Category where
  | dependency
  | configFile
  | folderStructure
deriving DecidableEq

/-- Model of `DetectionEvidence`: one observed fact about the project. -/
structure Evidence where
  source : String
  implies : String
  category : Category
deriving DecidableEq

/-- A JS value stored in the `answers` record: the resolver only ever stores
strings and booleans there. -/
inductive Value where
  | str (s : String)
  | bool (b : Bool)
deriving DecidableEq

/-- Model of `String(v)` for a stored answer value. -/
def valueToString : Option Value → String
  | none => "undefined"
  | some (.str s) => s
  | some (.bool true) => "true"
  | some (.bool false) => "false"

/-- Property read `a[k]` on the answers record. -/
def getAns (a : List (String × Value)) (k : String) : Option Value :=
  (a.find? (fun p => p.1 == k)).map (·.2)

/-- Property write `a[k] = v` on the answers record (overwrite in place,
append when the key is new). -/
def setAns (a : List (String × Value)) (k : String) (v : Value) :
    List (String × Value) :=
  if a.any (fun p => p.1 == k) then
    a.map (fun p => if p.1 == k then (k, v) else p)
  else a ++ [(k, v)]

/-- Model of `delete a[k]`. -/
def delAns (a : List (String × Value)) (k : String) : List (String × Value) :=
  a.filter (fun p => !(p.1 == k))

/-- Model of `parseImplies` from `resolver.ts`: split the `implies` string on commas,
each part is `field=value` (both trimmed) or a bare field meaning `"true"`. -/
def parseImplies (implies : String) : List (String × String) :=
  (splitOnChar ',' implies.data).map fun part =>
    let t := trimChars part
    let pre := t.takeWhile (fun c => c != '=')
    if pre.length == t.length then (⟨t⟩, "true")
    else (⟨trimChars pre⟩, ⟨trimChars (t.drop (pre.length + 1))⟩)

/-- The reserved meta fields skipped by answer extraction. -/
def reservedFields : List String := ["type", "type-hint", "database-driver"]

/-- Strings `"true"`/`"false"` are coerced to booleans on first write. -/
def coerceVal (v : String) : Value :=
  if v == "true" then .bool true
  else if v == "false" then .bool false
  else .str v

/-- The Spanish conflict warning pushed by the resolver. -/
def conflictMsg (field stored ignored source : String) : String :=
  "Conflicto en \"" ++ field ++ "\": se usa \"" ++ stored ++
    "\" (de antes), se ignora \"" ++ ignored ++ "\" (de " ++ source ++ ")"

/-- State of the answer-extraction loop (step 1 of `resolveDetection`). -/
structure ExtractSt where
  answers : List (String × Value)
  warnings : List String
  seen : List String
deriving DecidableEq

/-- One iteration of the inner loop of step 1 of `resolveDetection`,
processing a single `field=value` pair of one evidence. -/
def step1Pair (source : String) (st : ExtractSt) (p : String × String) :
    ExtractSt :=
  if reservedFields.contains p.1 then st
  else if st.seen.contains p.1 then
    if getAns st.answers p.1 = some (.str p.2) then st
    else { st with
      warnings := st.warnings ++
        [conflictMsg p.1 (valueToString (getAns st.answers p.1)) p.2 source] }
  else
    { answers := setAns st.answers p.1 (coerceVal p.2)
      warnings := st.warnings
      seen := st.seen ++ [p.1] }

/-- Step 1 of `resolveDetection`: extract answers and conflict warnings. -/
def extractAnswers (evidence : List Evidence) : ExtractSt :=
  evidence.foldl
    (fun st ev => (parseImplies ev.implies).foldl (step1Pair ev.source) st)
    ⟨[], [], []⟩

/-- The flattened `(source, field, value)` stream that step 1 scans. -/
def flatPairs (evidence : List Evidence) : List (String × String × String) :=
  evidence.flatMap fun ev =>
    (parseImplies ev.implies).map fun p => (ev.source, p.1, p.2)

/-- Step 1 re-expressed as a single scan over the flattened pair stream. -/
def extractFlat (st : ExtractSt) : List (String × String × String) → ExtractSt
  | [] => st
  | (s, f, v) :: rest => extractFlat (step1Pair s st (f, v)) rest

/-- The invariant of the extraction loop: a field is in `seenFields`
exactly when it has a value in `answers`. -/
def wfSt (st : ExtractSt) : Prop :=
  ∀ f : String, st.seen.contains f = (getAns st.answers f).isSome

/-- Model of `getDbDrivers`: values of all `database-driver=` evidences. -/
def getDbDrivers (evidence : List Evidence) : List String :=
  (evidence.filter (fun e => strStartsWith e.implies "database-driver=")).map
    fun e => ⟨(splitOnChar '=' e.implies.data).getD 1 []⟩

/-- Model of `resolveDbForMicroservice`. -/
def resolveDbForMicroservice (evidence : List Evidence)
    (answers : List (String × Value)) : List (String × Value) :=
  let drivers := getDbDrivers evidence
  let orm := getAns answers "orm"
  let a1 :=
    if orm = some (.str "mongoose") || drivers.contains "mongodb" then
      setAns answers "database" (.str "mongoose")
    else if orm = some (.str "typeorm") || !drivers.isEmpty then
      if drivers.contains "sqlserver" then
        setAns answers "database" (.str "typeorm-sqlserver")
      else if drivers.contains "postgres" then
        setAns answers "database" (.str "typeorm-postgres")
      else if drivers.contains "mysql" then
        setAns answers "database" (.str "typeorm-mysql")
      else setAns answers "database" (.str "typeorm-postgres")
    else answers
  delAns a1 "orm"

/-- Model of `resolveDbForFullstack`. -/
def resolveDbForFullstack (evidence : List Evidence)
    (answers : List (String × Value)) : List (String × Value) :=
  let drivers := getDbDrivers evidence
  let orm := getAns answers "orm"
  if orm = some (.str "mongoose") || drivers.contains "mongodb" then
    setAns answers "database" (.str "mongodb")
  else if drivers.contains "sqlite" then
    setAns answers "database" (.str "sqlite")
  else setAns answers "database" (.str "postgres")

/-- Model of `resolveDbForApi`.  The `orm ||` test of the source is JS truthiness of
the stored answer: any string except `""` is truthy, booleans by value. -/
def jsTruthyVal : Option Value → Bool
  | none => false
  | some (.str s) => !(s == "")
  | some (.bool b) => b

def resolveDbForApi (evidence : List Evidence)
    (answers : List (String × Value)) : List (String × Value) :=
  let drivers := getDbDrivers evidence
  let orm := getAns answers "orm"
  if orm = some (.str "mongoose") || drivers.contains "mongodb" then
    setAns answers "database" (.str "mongodb")
  else if drivers.contains "sqlite" then
    setAns answers "database" (.str "sqlite")
  else if jsTruthyVal orm || !drivers.isEmpty then
    setAns answers "database" (.str "postgres")
  else answers

/-- Step 2 of `resolveDetection`: the ordered type cascade.  Returns the
inferred type, its fixed confidence tier and the updated answers. -/
def resolveType (evidence : List Evidence) (hasPackageJson : Bool)
    (answers : List (String × Value)) : String × ℚ × List (String × Value) :=
  let hasFramework := fun (name : String) =>
    evidence.any fun e =>
      e.category == .dependency && strIncludes e.implies ("type=" ++ name)
  let hasDep := fun (keyword : String) =>
    evidence.any fun e =>
      e.category == .dependency && strIncludes e.source keyword
  let hasConfigType := fun (keyword : String) =>
    evidence.any fun e =>
      e.category == .configFile && strIncludes e.implies keyword
  let hasFolderHint := fun (keyword : String) =>
    evidence.any fun e =>
      e.category == .folderStructure && strIncludes e.implies keyword
  let hasORM := (getAns answers "orm").isSome
  let hasSrcDir := evidence.any fun e =>
    e.category == .folderStructure &&
      (strStartsWith e.source "src/" || strIncludes e.implies "frontend-hint")
  if hasFramework "microservice" || hasConfigType "type=microservice" then
    ("microservice", 0.95, resolveDbForMicroservice evidence answers)
  else if hasFramework "fullstack-or-frontend" && hasORM then
    ("fullstack", 0.9, resolveDbForFullstack evidence answers)
  else if hasFramework "fullstack-or-frontend" then
    ("frontend", 0.85, answers)
  else if hasFramework "api" then
    ("api", 0.85, resolveDbForApi evidence answers)
  else if hasFolderHint "type-hint=devops" ||
      (hasConfigType "containerization=docker" && !hasPackageJson) then
    ("devops", 0.8, answers)
  else if hasPackageJson && hasSrcDir then
    ("library", 0.6,
      if hasConfigType "language=typescript" || hasDep "typescript" then
        setAns answers "language" (.str "typescript")
      else answers)
  else ("basic", 0.3, answers)

/-- Remove the first element satisfying `p` (models `findIndex` + `splice`). -/
def removeFirst (p : α → Bool) : List α → List α
  | [] => []
  | x :: xs => if p x then xs else x :: removeFirst p xs

/-- Model of `resolveTestingCombinations` (step 3 of `resolveDetection`). -/
def resolveTestingCombinations (evidence : List Evidence)
    (answers : List (String × Value)) (warnings : List String) :
    List (String × Value) × List String :=
  let hasVitest := evidence.any (fun e => e.source == "vitest dependency")
  let hasJest := evidence.any (fun e => e.source == "jest dependency")
  let hasPlaywright :=
    evidence.any (fun e => e.source == "@playwright/test dependency")
  let hasCypress := evidence.any (fun e => e.source == "cypress dependency")
  let resolved : Option String :=
    if hasVitest && hasPlaywright then some "vitest-playwright"
    else if hasJest && hasCypress then some "jest-cypress"
    else none
  match resolved with
  | some r =>
    if getAns answers "testing" = some (.str r) then (answers, warnings)
    else
      (setAns answers "testing" (.str r),
       removeFirst (fun w => strIncludes w "\"testing\"") warnings)
  | none => (answers, warnings)

/-- Model of `DetectionResult`. -/
structure DetectionResult where
  type : String
  confidence : ℚ
  answers : List (String × Value)
  evidence : List Evidence
  warnings : List String
deriving DecidableEq

/-- Model of `resolveDetection` from `src/detection/resolver.ts`. -/
def resolveDetection (evidence : List Evidence) (hasPackageJson : Bool) :
    DetectionResult :=
  let st := extractAnswers evidence
  let tca := resolveType evidence hasPackageJson st.answers
  let aw := resolveTestingCombinations evidence tca.2.2 st.warnings
  let a4 :=
    if tca.1 == "frontend" then
      match getAns aw.1 "testing" with
      | some v => delAns (setAns aw.1 "includeTesting" v) "testing"
      | none => aw.1
    else aw.1
  ⟨tca.1, tca.2.1, a4, evidence, aw.2⟩

/-! ## Expression evaluator (`src/custom-templates/renderer.ts`) -/

/-- A JS value bound in an evaluator context (`Record<string, string|unknown>`);
`undefined` is modelled by `Option.none` at the lookup. -/
inductive JSVal where
  | str (s : String)
  | bool (b : Bool)
  | num (n : Int)
  | null
deriving DecidableEq

/-- Model of `String(v)` on a possibly-undefined value. -/
def jsOptToString : Option JSVal → String
  | none => "undefined"
  | some .null => "null"
  | some (.str s) => s
  | some (.bool true) => "true"
  | some (.bool false) => "false"
  | some (.num n) => toString n

/-- Model of `String(v ?? '')`: nullish coalescing to the empty string, then `String`. -/
def jsCoalesceStr : Option JSVal → String
  | none => ""
  | some .null => ""
  | some v => jsOptToString (some v)

/-- The `\w` character class. -/
def isWordC (c : Char) : Bool := c.isAlphanum || c == '_'

def isQuoteC (c : Char) : Bool := c == '\'' || c == '"'

/-- Anchored match for `^(\w+)\s*OP` where `OP` is a fixed operator literal;
returns the identifier and the remainder after the operator and following
whitespace.  Because `=`/`!` are neither word nor whitespace characters the
regex backtracking is deterministic: maximal word run, maximal space run,
then the literal operator must follow. -/
def matchIdentOp (op : List Char) (l : List Char) : Option (String × List Char) :=
  match l with
  | [] => none
  | c :: cs =>
    if isWordC c then
      let rest1 := (cs.dropWhile isWordC).dropWhile isWsC
      if hasPrefixC op rest1 then
        some (⟨c :: cs.takeWhile isWordC⟩, (rest1.drop op.length).dropWhile isWsC)
      else none
    else none

/-- Tail match for `['"](.+)['"]\s*$`: the closing quote is the last
non-whitespace character, the captured middle is non-empty and contains no
line terminator (JS `.` excludes them). -/
def litTail (l : List Char) : Option String :=
  match l with
  | [] => none
  | q :: rest =>
    if isQuoteC q then
      let revd := rest.reverse
      match revd.dropWhile isWsC with
      | [] => none
      | q2 :: revmid =>
        if isQuoteC q2 then
          let mid := revmid.reverse
          if !mid.isEmpty && mid.all (fun c => c != '\n' && c != '\r') then
            some ⟨mid⟩
          else none
        else none
    else none

/-- Tail match for `(true|false)\s*$`. -/
def boolTail (l : List Char) : Option Bool :=
  if hasPrefixC ['t', 'r', 'u', 'e'] l && (l.drop 4).all isWsC then some true
  else if hasPrefixC ['f', 'a', 'l', 's', 'e'] l && (l.drop 5).all isWsC then
    some false
  else none

/-- JS truthiness restricted to the explicit list tested by the source:
`undefined`, `null`, `false`, `''` and `'false'` are false, all else true. -/
def bareTruthy (v : Option JSVal) : Bool :=
  match v with
  | none => false
  | some .null => false
  | some (.bool false) => false
  | some (.str s) => !(s == "" || s == "false")
  | _ => true

/-- Model of `evaluateCondition` from `renderer.ts`: the four grammar rules tried in
source order, falling back to bare-identifier truthiness of the trimmed
expression. -/
def evaluateCondition (expr : String) (context : String → Option JSVal) : Bool :=
  let l := expr.data
  match matchIdentOp ['=', '=', '='] l with
  | some (id, rest) =>
    match litTail rest with
    | some lit => jsCoalesceStr (context id) == lit
    | none =>
      match matchIdentOp ['!', '=', '='] l with
      | some (id2, rest2) =>
        match litTail rest2 with
        | some lit2 => !(jsCoalesceStr (context id2) == lit2)
        | none => evalBoolOrBare l id rest context
      | none => evalBoolOrBare l id rest context
  | none =>
    match matchIdentOp ['!', '=', '='] l with
    | some (id2, rest2) =>
      match litTail rest2 with
      | some lit2 => !(jsCoalesceStr (context id2) == lit2)
      | none => bareTruthy (context ⟨trimChars l⟩)
    | none => bareTruthy (context ⟨trimChars l⟩)
where
  /-- Rules 3 and 4: boolean comparison, else bare truthiness. -/
  evalBoolOrBare (l : List Char) (id : String) (rest : List Char)
      (context : String → Option JSVal) : Bool :=
    match boolTail rest with
    | some expected =>
      match context id with
      | some (.bool b) => b == expected
      | v => (jsOptToString v == "true") == expected
    | none => bareTruthy (context ⟨trimChars l⟩)

/-- Model of `evaluateWhenExpression` — same evaluator over an answers record. -/
def evaluateWhenExpression (expr : String) (answers : String → Option JSVal) :
    Bool :=
  evaluateCondition expr answers

/-! ## Template renderer (`src/custom-templates/renderer.ts`) -/

def isIdentStartC (c : Char) : Bool := c.isAlpha || c == '_'
def isIdentC (c : Char) : Bool := c.isAlphanum || c == '_'

/-- Anchored match of `VAR_TOKEN = \{\{([a-zA-Z_][a-zA-Z0-9_]*)\}\}`:
returns the identifier and the remainder after the token.  The greedy
identifier run is deterministic because `}` is not an identifier character. -/
def varMatch (l : List Char) : Option (String × List Char) :=
  match l with
  | c1 :: c2 :: c :: cs =>
    if c1 == '{' && c2 == '{' && isIdentStartC c then
      match cs.dropWhile isIdentC with
      | d1 :: d2 :: rest =>
        if d1 == '}' && d2 == '}' then
          some (⟨c :: cs.takeWhile isIdentC⟩, rest)
        else none
      | _ => none
    else none
  | _ => none

/-- One global-replace pass of `VAR_TOKEN`, substituting `lookup id`.
A failed anchor advances one character, as the JS regex engine does;
replacements are emitted without rescanning.  `fuel` bounds recursion and is
always at least the length of the remaining input. -/
def substVarsAux (lookup : String → String) : Nat → List Char → List Char
  | 0, s => s
  | _ + 1, [] => []
  | fuel + 1, c :: rest =>
    match varMatch (c :: rest) with
    | some (id, rest2) => (lookup id).data ++ substVarsAux lookup fuel rest2
    | none => c :: substVarsAux lookup fuel rest

def substVars (lookup : String → String) (l : List Char) : List Char :=
  substVarsAux lookup l.length l

/-- Anchored match of `\{\{#if\s+([^}]+)\}\}`: after `{{#if` the next
character must be whitespace, the run up to the first `}` must have at least
two characters (one for `\s+`, one for `[^}]+`), and the run must be closed
by `}}`.  Returns the raw condition run and the remainder. -/
def ifOpenMatch (l : List Char) : Option (List Char × List Char) :=
  if hasPrefixC ['{', '{', '#', 'i', 'f'] l then
    match l.drop 5 with
    | c :: cs =>
      if isWsC c then
        let run := c :: cs.takeWhile (fun x => x != '}')
        if 2 ≤ run.length then
          match cs.dropWhile (fun x => x != '}') with
          | d1 :: d2 :: rest =>
            if d1 == '}' && d2 == '}' then some (run, rest) else none
          | _ => none
        else none
      else none
    | [] => none
  else none

def ifCloser : List Char := ['{', '{', '/', 'i', 'f', '}', '}']

/-- Split at the first occurrence of `{{/if}}` (the lazy `([\s\S]*?)` body). -/
def splitAtCloser : List Char → Option (List Char × List Char)
  | [] => none
  | c :: rest =>
    if hasPrefixC ifCloser (c :: rest) then some ([], (c :: rest).drop 7)
    else
      match splitAtCloser rest with
      | some (pre, post) => some (c :: pre, post)
      | none => none

/-- Anchored match of the whole `IF_BLOCK` regex: returns the raw condition
run, the (lazy) body, and the remainder after the closing marker. -/
def ifMatch (s : List Char) : Option (List Char × List Char × List Char) :=
  match ifOpenMatch s with
  | some (run, after) =>
    match splitAtCloser after with
    | some (body, rest) => some (run, body, rest)
    | none => none
  | none => none

/-- One global-replace pass of `IF_BLOCK`: a matched block is replaced by its
body when the trimmed condition evaluates true and by nothing otherwise
(the capture group differs from the raw run only in leading whitespace, which
the `.trim()` of the caller removes anyway). -/
def ifPassAux (eval : String → Bool) : Nat → List Char → List Char
  | 0, s => s
  | _ + 1, [] => []
  | fuel + 1, c :: rest =>
    match ifMatch (c :: rest) with
    | some (run, body, rest2) =>
      (if eval ⟨trimChars run⟩ then body else []) ++ ifPassAux eval fuel rest2
    | none => c :: ifPassAux eval fuel rest

def ifPass (eval : String → Bool) (l : List Char) : List Char :=
  ifPassAux eval l.length l

/-- The bounded conditional-resolution loop: up to `n` passes, stopping as
soon as a pass makes no change. -/
def iterIf (eval : String → Bool) : Nat → List Char → List Char
  | 0, s => s
  | n + 1, s =>
    let s2 := ifPass eval s
    if s2 == s then s2 else iterIf eval n s2

/-- Global replace of `TRIPLE_BLANK = \n{3,}` by two newlines: a maximal run
of three or more newlines is replaced by exactly two. -/
def collapseAux : Nat → List Char → List Char
  | 0, s => s
  | _ + 1, [] => []
  | fuel + 1, c :: rest =>
    if c == '\n' && hasPrefixC ['\n', '\n'] rest then
      '\n' :: '\n' ::
        collapseAux fuel ((rest.drop 2).dropWhile (fun x => x == '\n'))
    else c :: collapseAux fuel rest

def collapseBlanks (l : List Char) : List Char := collapseAux l.length l

/-- Model of `renderTemplate`: conditional passes (at most 5), then variable
substitution with `context[key] ?? ''`, then blank-line collapsing. -/
def renderTemplate (template : String) (context : String → Option String) :
    String :=
  let evalc := fun (cond : String) =>
    evaluateCondition cond (fun k => (context k).map JSVal.str)
  let r1 := iterIf evalc 5 template.data
  let r2 := substVars (fun k => (context k).getD "") r1
  ⟨collapseBlanks r2⟩

/-- Model of `interpolateSimple`: the variable-substitution pass alone. -/
def interpolateSimple (expr : String) (context : String → Option String) :
    String :=
  ⟨substVars (fun k => (context k).getD "") expr.data⟩

/-! ## Custom template validator (`src/custom-templates/loader.ts`) -/

/-- A parsed YAML value handed to the validator. -/
inductive JVal where
  | str (s : String)
  | num (n : Int)
  | bool (b : Bool)
  | null
  | arr (elems : List JVal)
  | obj (fields : List (String × JVal))

/-- Property read `v[k]` (`undefined` for non-objects and missing keys). -/
def jGet (v : JVal) (k : String) : Option JVal :=
  match v with
  | .obj fs => (fs.find? (fun p => p.1 == k)).map (·.2)
  | _ => none

/-- JS truthiness of a possibly-undefined value. -/
def jTruthy : Option JVal → Bool
  | none => false
  | some .null => false
  | some (.bool b) => b
  | some (.str s) => !(s == "")
  | some (.num n) => !(n == 0)
  | some (.arr _) => true
  | some (.obj _) => true

def jIsNull : JVal → Bool
  | .null => true
  | _ => false

/-- Test `typeof v === 'object'` (true for objects, arrays and `null`). -/
def jIsObjectType : JVal → Bool
  | .obj _ => true
  | .arr _ => true
  | .null => true
  | _ => false

/-- Test `typeof v === 'string'`. -/
def jIsStringType : Option JVal → Bool
  | some (.str _) => true
  | _ => false

/-- Test `v === s` for a string literal `s`. -/
def jIsStr (v : Option JVal) (s : String) : Bool :=
  match v with
  | some (.str t) => t == s
  | _ => false

/-- Model of `Object.entries(v)` for the values iterated by the validator (arrays
enumerate their indices, as in JS). -/
def jEntries : JVal → List (String × JVal)
  | .obj fs => fs
  | .arr es => es.enum.map (fun p => (toString p.1, p.2))
  | _ => []

/-- Test `!v || typeof v !== 'string'`: the test used for required string fields
(a present but empty string is falsy and also fails). -/
def needsStringErr (v : Option JVal) : Bool :=
  match v with
  | some (.str s) => s == ""
  | _ => true

/-- Test `v !== undefined && typeof v !== 'string'`: optional string fields. -/
def optStringErr : Option JVal → Bool
  | none => false
  | some (.str _) => false
  | some _ => true

def hasSuffixC (suffix l : List Char) : Bool :=
  hasPrefixC suffix.reverse l.reverse

/-- Derive the template id from the file path: normalise backslashes, take
the last path segment, strip a case-insensitive `.yaml`/`.yml` extension. -/
def deriveTemplateId (filePath : String) : String :=
  let norm := filePath.data.map (fun c => if c == '\\' then '/' else c)
  let fname := (splitOnChar '/' norm).getLast?.getD []
  let low := fname.map Char.toLower
  if hasSuffixC ".yaml".data low then ⟨fname.take (fname.length - 5)⟩
  else if hasSuffixC ".yml".data low then ⟨fname.take (fname.length - 4)⟩
  else ⟨fname⟩

def VALID_QUESTION_TYPES : List String := ["select", "input", "confirm", "multiselect"]

/-- Test of `WHEN_PATTERN = ^(\w+)(\s*(===|!==)\s*(['"].+['"]|true|false)\s*)?$`
on an already-trimmed string. -/
def whenPatternTest (l : List Char) : Bool :=
  match l with
  | [] => false
  | c :: cs =>
    if isWordC c then
      let rest := cs.dropWhile isWordC
      if rest.isEmpty then true
      else
        let r1 := rest.dropWhile isWsC
        if hasPrefixC ['=', '=', '='] r1 || hasPrefixC ['!', '=', '='] r1 then
          let r2 := (r1.drop 3).dropWhile isWsC
          (litTail r2).isSome || (boolTail r2).isSome
        else false
    else false

/-- Errors of the `content` section (`SKILL.md` and the optional
sub-directory maps). -/
def contentErrors (content : Option JVal) : List String :=
  if !(jTruthy content) || !(content.map jIsObjectType).getD false then
    ["Missing or invalid \"content\" field (must be an object)"]
  else
    match content with
    | some cv =>
      (if needsStringErr (jGet cv "SKILL.md") then
        ["Missing or invalid \"content.SKILL.md\" (must be a non-empty string)"]
      else []) ++
      (["references/", "scripts/", "assets/"].flatMap fun dir =>
        match jGet cv dir with
        | none => []
        | some dv =>
          if !(jIsObjectType dv) || jIsNull dv then
            ["\"content." ++ dir ++ "\" must be an object mapping filenames to template strings"]
          else
            (jEntries dv).flatMap fun fv =>
              if jIsStringType (some fv.2) then []
              else ["\"content." ++ dir ++ fv.1 ++ "\" must be a string"])
    | none => []

/-- Template interpolation `${q.type}`: `String(q.type)` for the values reachable in
the choices error (always a string, since the branch requires
`select`/`multiselect`). -/
def jsStrOf (v : Option JVal) : String :=
  match v with
  | some (.str s) => s
  | some (.bool true) => "true"
  | some (.bool false) => "false"
  | some (.num n) => toString n
  | some .null => "null"
  | none => "undefined"
  | some (.arr _) => ""
  | some (.obj _) => "[object Object]"

/-- Missing or invalid `name` / `message` error of one question. -/
def qNameErrs (pfx : String) (q : JVal) : List String :=
  if needsStringErr (jGet q "name") then [pfx ++ ": missing or invalid \"name\""]
  else []

def qMsgErrs (pfx : String) (q : JVal) : List String :=
  if needsStringErr (jGet q "message") then
    [pfx ++ ": missing or invalid \"message\""]
  else []

def qTypeErrs (pfx : String) (q : JVal) : List String :=
  if !(jTruthy (jGet q "type")) ||
      !(VALID_QUESTION_TYPES.any fun t => jIsStr (jGet q "type") t) then
    [pfx ++ ": invalid \"type\" (must be one of: select, input, confirm, multiselect)"]
  else []

/-- The `choices` validation of one `select`/`multiselect` question. -/
def qChoiceErrs (pfx : String) (q : JVal) : List String :=
  if jIsStr (jGet q "type") "select" || jIsStr (jGet q "type") "multiselect" then
    match jGet q "choices" with
    | some (.arr (c :: cs)) =>
      ((c :: cs).enum.flatMap fun p =>
        if !(jTruthy (some p.2)) || !(jIsObjectType p.2) ||
            !(jTruthy (jGet p.2 "name")) || !(jTruthy (jGet p.2 "value")) then
          [pfx ++ ".choices[" ++ toString p.1 ++ "]: must have \"name\" and \"value\""]
        else [])
    | _ =>
      [pfx ++ ": \"choices\" required and must be non-empty for " ++
        jsStrOf (jGet q "type")]
  else []

/-- The `when` validation of one question: an error when present and not a
string, a warning when it does not match the supported grammar. -/
def qWhenRes (pfx : String) (q : JVal) : List String × List String :=
  match jGet q "when" with
  | none => ([], [])
  | some (.str ws) =>
    if whenPatternTest (trimChars ws.data) then ([], [])
    else
      ([], [pfx ++ ": \"when\" expression \"" ++ ws ++
        "\" may not be parseable (expected: \"varName\", \"var === 'val'\", or \"var !== 'val'\")"])
  | some _ => ([pfx ++ ": \"when\" must be a string expression"], [])

/-- Duplicate-name warning and seen-set update of one question. -/
def qDupWarns (pfx : String) (q : JVal) (seen : List String) : List String :=
  if needsStringErr (jGet q "name") then []
  else
    match jGet q "name" with
    | some (.str n) =>
      if seen.contains n then
        [pfx ++ ": duplicate question name \"" ++ n ++ "\""]
      else []
    | _ => []

def qSeenUpd (q : JVal) (seen : List String) : List String :=
  if needsStringErr (jGet q "name") then seen
  else
    match jGet q "name" with
    | some (.str n) => seen ++ [n]
    | _ => seen

/-- Errors and warnings for one entry of the `questions` array, together with
the updated set of seen question names. -/
def questionChecks (i : Nat) (q : JVal) (seen : List String) :
    List String × List String × List String :=
  if !(jTruthy (some q)) || !(jIsObjectType q) then
    (["questions[" ++ toString i ++ "]" ++ ": must be an object"], [], seen)
  else
    (qNameErrs ("questions[" ++ toString i ++ "]") q ++
      qMsgErrs ("questions[" ++ toString i ++ "]") q ++
      qTypeErrs ("questions[" ++ toString i ++ "]") q ++
      qChoiceErrs ("questions[" ++ toString i ++ "]") q ++
      (qWhenRes ("questions[" ++ toString i ++ "]") q).1,
     qDupWarns ("questions[" ++ toString i ++ "]") q seen ++
      (qWhenRes ("questions[" ++ toString i ++ "]") q).2,
     qSeenUpd q seen)

/-- The loop over the `questions` array, threading the seen-names set. -/
def questionsFold : Nat → List JVal → List String → List String × List String
  | _, [], _ => ([], [])
  | i, q :: rest, seen =>
    let r := questionChecks i q seen
    let r2 := questionsFold (i + 1) rest r.2.2
    (r.1 ++ r2.1, r.2.1 ++ r2.2)

/-- Errors/warnings of the `questions` section. -/
def questionsErrors (qs : Option JVal) : List String × List String :=
  match qs with
  | none => ([], [])
  | some (.arr items) => questionsFold 0 items []
  | some _ => (["\"questions\" must be an array"], [])

/-- Errors of the `variables` section. -/
def variablesErrors (vs : Option JVal) : List String :=
  match vs with
  | none => []
  | some (.obj fields) =>
    fields.flatMap fun p =>
      if jIsStringType (some p.2) then []
      else ["variables." ++ p.1 ++ ": must be a string"]
  | some _ => ["\"variables\" must be an object mapping names to template strings"]

/-- Model of `CustomTemplateValidationResult`. -/
structure ValidationResult where
  valid : Bool
  errors : List String
  warnings : List String
  templateId : Option String
deriving DecidableEq

/-- The source's `!q.choices || !Array.isArray(q.choices) || length === 0`
test: true unless `choices` is a non-empty array. -/
def choicesMissing (q : JVal) : Bool :=
  match jGet q "choices" with
  | some (.arr (_ :: _)) => false
  | _ => true

/-- All errors accumulated for an object-typed raw template. -/
def validateErrors (raw : JVal) : List String :=
  (if needsStringErr (jGet raw "name") then
    ["Missing or invalid \"name\" field (must be a string)"]
  else []) ++
  (if needsStringErr (jGet raw "description") then
    ["Missing or invalid \"description\" field (must be a string)"]
  else []) ++
  (if optStringErr (jGet raw "version") then
    ["\"version\" must be a string if provided"]
  else []) ++
  (if optStringErr (jGet raw "author") then
    ["\"author\" must be a string if provided"]
  else []) ++
  contentErrors (jGet raw "content") ++
  (questionsErrors (jGet raw "questions")).1 ++
  variablesErrors (jGet raw "variables")

/-- Model of `validateCustomTemplate` from `src/custom-templates/loader.ts`. -/
def validateCustomTemplate (raw : JVal) (filePath : String) : ValidationResult :=
  if !(jTruthy (some raw)) || !(jIsObjectType raw) then
    { valid := false, errors := ["Template must be a YAML object"],
      warnings := [], templateId := none }
  else
    { valid := (validateErrors raw).isEmpty
      errors := validateErrors raw
      warnings := (questionsErrors (jGet raw "questions")).2
      templateId :=
        if (validateErrors raw).isEmpty then some (deriveTemplateId filePath)
        else none }

/-! ## Helper lemmas: list/string utilities -/

theorem hasPrefixC_self_append (n t : List Char) : hasPrefixC n (n ++ t) = true := by
  induction n with
  | nil => simp [hasPrefixC]
  | cons a as ih => simp [hasPrefixC, ih]

theorem hasPrefixC_extend {n s : List Char} (t : List Char)
    (h : hasPrefixC n s = true) : hasPrefixC n (s ++ t) = true := by
  induction n generalizing s with
  | nil => simp [hasPrefixC]
  | cons a as ih =>
    cases s with
    | nil => simp [hasPrefixC] at h
    | cons b bs =>
      simp only [hasPrefixC, Bool.and_eq_true] at h ⊢
      exact ⟨h.1, ih h.2⟩

theorem hasInfixC_nil_needle (l : List Char) : hasInfixC [] l = true := by
  cases l <;> simp [hasInfixC, hasPrefixC]

theorem hasInfixC_append_right {n t : List Char} (s : List Char)
    (h : hasInfixC n t = true) : hasInfixC n (s ++ t) = true := by
  induction s with
  | nil => simpa using h
  | cons c cs ih => simp [hasInfixC, ih]

theorem hasInfixC_append_left {n s : List Char} (t : List Char)
    (h : hasInfixC n s = true) : hasInfixC n (s ++ t) = true := by
  induction s with
  | nil =>
    simp only [hasInfixC, List.isEmpty_iff] at h
    subst h
    simpa using hasInfixC_nil_needle t
  | cons c cs ih =>
    simp only [hasInfixC, Bool.or_eq_true] at h
    rcases h with h | h
    · have := hasPrefixC_extend t h
      simp only [List.cons_append] at this ⊢
      simp [hasInfixC, this]
    · simp [hasInfixC, ih h]

theorem hasPrefixC_refl (n : List Char) : hasPrefixC n n = true := by
  induction n with
  | nil => rfl
  | cons a as ih => simp [hasPrefixC, ih]

theorem hasInfixC_self (n : List Char) : hasInfixC n n = true := by
  cases n with
  | nil => rfl
  | cons a as => simp [hasInfixC, hasPrefixC_refl]

theorem hasInfixC_mid (pre n t : List Char) : hasInfixC n (pre ++ n ++ t) = true := by
  rw [List.append_assoc]
  exact hasInfixC_append_right pre (hasInfixC_append_left t (hasInfixC_self n))

theorem strIncludes_pre_mid_suf (pre mid suf : String) :
    strIncludes (pre ++ mid ++ suf) mid = true := by
  unfold strIncludes
  rw [String.data_append, String.data_append]
  exact hasInfixC_mid pre.data mid.data suf.data

theorem strIncludes_append_right {t n : String} (s : String)
    (h : strIncludes t n = true) : strIncludes (s ++ t) n = true := by
  unfold strIncludes at h ⊢
  rw [String.data_append]
  exact hasInfixC_append_right s.data h

theorem strIncludes_append_left {s n : String} (t : String)
    (h : strIncludes s n = true) : strIncludes (s ++ t) n = true := by
  unfold strIncludes at h ⊢
  rw [String.data_append]
  exact hasInfixC_append_left t.data h

/-- The conflict warning message always contains the field name in quotes. -/
theorem conflictMsg_includes_field (f a b c : String) :
    strIncludes (conflictMsg f a b c) ("\"" ++ f ++ "\"") = true := by
  have hsplit : conflictMsg f a b c =
      "Conflicto en " ++ ("\"" ++ f ++ "\"") ++
        (": se usa \"" ++ a ++ "\" (de antes), se ignora \"" ++ b ++
          "\" (de " ++ c ++ ")") := by
    have h1 : ("Conflicto en \"" : String) = "Conflicto en " ++ "\"" := rfl
    have h2 : ("\": se usa \"" : String) = "\"" ++ ": se usa \"" := rfl
    simp only [conflictMsg, h1, h2, String.append_assoc]
  rw [hsplit]
  exact strIncludes_pre_mid_suf _ _ _

/-! ## Helper lemmas: answers record -/

theorem beq_symm_false {α : Type} [BEq α] [LawfulBEq α] {a b : α}
    (h : (a == b) = false) : (b == a) = false := by
  simp only [beq_eq_false_iff_ne] at h ⊢
  exact fun hh => h hh.symm

theorem getAns_nil (k : String) : getAns [] k = none := rfl

theorem getAns_cons_hit {p : String × Value} {ps : List (String × Value)}
    {k : String} (h : (p.1 == k) = true) : getAns (p :: ps) k = some p.2 := by
  simp [getAns, List.find?, h]

theorem getAns_cons_miss {p : String × Value} {ps : List (String × Value)}
    {k : String} (h : (p.1 == k) = false) : getAns (p :: ps) k = getAns ps k := by
  simp [getAns, List.find?, h]

theorem delAns_cons_drop {p : String × Value} {ps : List (String × Value)}
    {k : String} (h : (p.1 == k) = true) : delAns (p :: ps) k = delAns ps k := by
  simp [delAns, List.filter_cons, h]

theorem delAns_cons_keep {p : String × Value} {ps : List (String × Value)}
    {k : String} (h : (p.1 == k) = false) : delAns (p :: ps) k = p :: delAns ps k := by
  simp [delAns, List.filter_cons, h]

theorem getAns_overwrite_self {a : List (String × Value)} {k : String}
    (v : Value) (h : a.any (fun p => p.1 == k) = true) :
    getAns (a.map (fun p => if p.1 == k then (k, v) else p)) k = some v := by
  induction a with
  | nil => simp at h
  | cons p ps ih =>
    by_cases hp : (p.1 == k) = true
    · simp only [List.map_cons, if_pos hp]
      exact getAns_cons_hit (by simp)
    · rw [Bool.not_eq_true] at hp
      simp only [List.any_cons, hp, Bool.false_or] at h
      simp only [List.map_cons, hp, Bool.false_eq_true, if_neg, ite_false]
      rw [getAns_cons_miss hp]
      exact ih h

theorem getAns_append_single_self {a : List (String × Value)} {k : String}
    (v : Value) (h : a.any (fun p => p.1 == k) = false) :
    getAns (a ++ [(k, v)]) k = some v := by
  induction a with
  | nil => exact getAns_cons_hit (by simp)
  | cons p ps ih =>
    simp only [List.any_cons, Bool.or_eq_false_iff] at h
    simp only [List.cons_append]
    rw [getAns_cons_miss h.1]
    exact ih h.2

theorem getAns_setAns_self (a : List (String × Value)) (k : String) (v : Value) :
    getAns (setAns a k v) k = some v := by
  unfold setAns
  by_cases h : a.any (fun p => p.1 == k) = true
  · rw [if_pos h]
    exact getAns_overwrite_self v h
  · rw [if_neg h]
    rw [Bool.not_eq_true] at h
    exact getAns_append_single_self v h

theorem getAns_overwrite_other {k k' : String} (a : List (String × Value))
    (v : Value) (h : (k' == k) = false) :
    getAns (a.map (fun p => if p.1 == k then (k, v) else p)) k' = getAns a k' := by
  induction a with
  | nil => rfl
  | cons p ps ih =>
    by_cases hp : (p.1 == k) = true
    · have hpk : p.1 = k := by simpa [beq_iff_eq] using hp
      have hp' : (p.1 == k') = false := by
        rw [hpk]; exact beq_symm_false h
      simp only [List.map_cons, if_pos hp]
      rw [@getAns_cons_miss (k, v) _ k' (beq_symm_false h), getAns_cons_miss hp']
      exact ih
    · rw [Bool.not_eq_true] at hp
      simp only [List.map_cons, hp, Bool.false_eq_true, if_neg, ite_false]
      by_cases hq : (p.1 == k') = true
      · rw [getAns_cons_hit hq, getAns_cons_hit hq]
      · rw [Bool.not_eq_true] at hq
        rw [getAns_cons_miss hq, getAns_cons_miss hq]
        exact ih

theorem getAns_append_single_other {k k' : String} (a : List (String × Value))
    (v : Value) (h : (k' == k) = false) :
    getAns (a ++ [(k, v)]) k' = getAns a k' := by
  induction a with
  | nil =>
    simp only [List.nil_append]
    rw [@getAns_cons_miss (k, v) [] k' (beq_symm_false h)]
  | cons p ps ih =>
    by_cases hq : (p.1 == k') = true
    · simp only [List.cons_append]
      rw [getAns_cons_hit hq, getAns_cons_hit hq]
    · rw [Bool.not_eq_true] at hq
      simp only [List.cons_append]
      rw [getAns_cons_miss hq, getAns_cons_miss hq]
      exact ih

theorem getAns_setAns_other {k k' : String} (a : List (String × Value))
    (v : Value) (h : (k' == k) = false) :
    getAns (setAns a k v) k' = getAns a k' := by
  unfold setAns
  split
  · exact getAns_overwrite_other a v h
  · exact getAns_append_single_other a v h

theorem getAns_delAns_other {k k' : String} (a : List (String × Value))
    (h : (k' == k) = false) :
    getAns (delAns a k) k' = getAns a k' := by
  induction a with
  | nil => rfl
  | cons p ps ih =>
    by_cases hp : (p.1 == k) = true
    · have hpk : p.1 = k := by simpa [beq_iff_eq] using hp
      have hp' : (p.1 == k') = false := by
        rw [hpk]; exact beq_symm_false h
      rw [delAns_cons_drop hp, getAns_cons_miss hp']
      exact ih
    · rw [Bool.not_eq_true] at hp
      rw [delAns_cons_keep hp]
      by_cases hq : (p.1 == k') = true
      · rw [getAns_cons_hit hq, getAns_cons_hit hq]
      · rw [Bool.not_eq_true] at hq
        rw [getAns_cons_miss hq, getAns_cons_miss hq]
        exact ih

/-! ## Helper lemmas: removeFirst -/

theorem mem_removeFirst_of_not {p : α → Bool} {w : α} {l : List α}
    (hw : p w = false) (hm : w ∈ l) : w ∈ removeFirst p l := by
  induction l with
  | nil => simp at hm
  | cons x xs ih =>
    unfold removeFirst
    by_cases hx : p x = true
    · rw [if_pos hx]
      rcases List.mem_cons.mp hm with h | h
      · subst h; rw [hw] at hx; simp at hx
      · exact h
    · rw [if_neg hx]
      rcases List.mem_cons.mp hm with h | h
      · exact h ▸ List.mem_cons_self x _
      · exact List.mem_cons_of_mem x (ih h)

theorem length_removeFirst_ge (p : α → Bool) (l : List α) :
    l.length ≤ (removeFirst p l).length + 1 := by
  induction l with
  | nil => simp [removeFirst]
  | cons x xs ih =>
    unfold removeFirst
    by_cases hx : p x = true
    · rw [if_pos hx]; simp
    · rw [if_neg hx]
      simpa using Nat.succ_le_succ ih

/-! ## Helper lemmas: the answer-extraction scan (step 1) -/

theorem contains_append_single (l : List String) (a f : String) :
    (l ++ [a]).contains f = (l.contains f || f == a) := by
  induction l with
  | nil =>
    show List.contains [a] f = (List.contains [] f || (f == a))
    rw [List.contains_cons]
    cases h : f == a <;> rfl
  | cons x xs ih =>
    simp only [List.cons_append, List.contains_cons] at ih ⊢
    rw [ih, Bool.or_assoc]

theorem wfSt_init : wfSt ⟨[], [], []⟩ := by
  intro f
  rfl

theorem wfSt_step {st : ExtractSt} (s : String) (p : String × String)
    (h : wfSt st) : wfSt (step1Pair s st p) := by
  unfold step1Pair
  split
  · exact h
  · split
    · split
      · exact h
      · intro f
        exact h f
    · rename_i hres hseen
      intro f
      simp only
      rw [contains_append_single]
      by_cases hf : (f == p.1) = true
      · have hfp : f = p.1 := by simpa [beq_iff_eq] using hf
        subst hfp
        rw [getAns_setAns_self]
        simp [hf]
      · rw [Bool.not_eq_true] at hf
        rw [getAns_setAns_other _ _ hf, hf, Bool.or_false]
        exact h f

theorem step1Pair_answers_preserved {st : ExtractSt} {f : String}
    (s : String) (p : String × String) (hwf : wfSt st)
    (h : (getAns st.answers f).isSome) :
    getAns (step1Pair s st p).answers f = getAns st.answers f := by
  unfold step1Pair
  split
  · rfl
  · split
    · split
      · rfl
      · rfl
    · rename_i hres hseen
      simp only
      by_cases hf : (f == p.1) = true
      · have hfp : f = p.1 := by simpa [beq_iff_eq] using hf
        subst hfp
        exfalso
        rw [Bool.not_eq_true] at hseen
        rw [hwf p.1, h] at hseen
        simp at hseen
      · rw [Bool.not_eq_true] at hf
        exact getAns_setAns_other _ _ hf

theorem step1Pair_answers_other {st : ExtractSt} {f : String}
    (s : String) (p : String × String) (h : (p.1 == f) = false) :
    getAns (step1Pair s st p).answers f = getAns st.answers f := by
  unfold step1Pair
  split
  · rfl
  · split
    · split
      · rfl
      · rfl
    · simp only
      exact getAns_setAns_other _ _ (beq_symm_false h)

theorem step1Pair_warnings_mono {st : ExtractSt} {w : String}
    (s : String) (p : String × String) (h : w ∈ st.warnings) :
    w ∈ (step1Pair s st p).warnings := by
  unfold step1Pair
  split
  · exact h
  · split
    · split
      · exact h
      · exact List.mem_append_left _ h
    · exact h

theorem extractFlat_warnings_mono {st : ExtractSt} {w : String}
    (L : List (String × String × String)) (h : w ∈ st.warnings) :
    w ∈ (extractFlat st L).warnings := by
  induction L generalizing st with
  | nil => exact h
  | cons x L' ih =>
    obtain ⟨s, f, v⟩ := x
    exact ih (step1Pair_warnings_mono s (f, v) h)

theorem wfSt_extractFlat {st : ExtractSt}
    (L : List (String × String × String)) (h : wfSt st) :
    wfSt (extractFlat st L) := by
  induction L generalizing st with
  | nil => exact h
  | cons x L' ih =>
    obtain ⟨s, f, v⟩ := x
    exact ih (wfSt_step s (f, v) h)

theorem extractFlat_answers_preserved {st : ExtractSt} {f : String}
    (L : List (String × String × String)) (hwf : wfSt st)
    (h : (getAns st.answers f).isSome) :
    getAns (extractFlat st L).answers f = getAns st.answers f := by
  induction L generalizing st with
  | nil => rfl
  | cons x L' ih =>
    obtain ⟨s, g, v⟩ := x
    show getAns (extractFlat (step1Pair s st (g, v)) L').answers f = _
    rw [ih (wfSt_step s (g, v) hwf)
      (by rw [step1Pair_answers_preserved s (g, v) hwf h]; exact h)]
    exact step1Pair_answers_preserved s (g, v) hwf h

/-- First assignment wins: scanning a stream whose first pair for a
non-reserved field `f` carries value `v` leaves `coerceVal v` stored at `f`. -/
theorem extractFlat_first_wins {st : ExtractSt} {f v s₀ : String}
    {l1 l2 : List (String × String × String)}
    (hwf : wfSt st) (hn : getAns st.answers f = none)
    (hres : reservedFields.contains f = false)
    (hl1 : ∀ x ∈ l1, (x.2.1 == f) = false) :
    getAns (extractFlat st (l1 ++ (s₀, f, v) :: l2)).answers f
      = some (coerceVal v) := by
  induction l1 generalizing st with
  | nil =>
    simp only [List.nil_append]
    show getAns (extractFlat (step1Pair s₀ st (f, v)) l2).answers f = _
    have hseen : st.seen.contains f = false := by
      rw [hwf f, hn]; rfl
    have hstep : getAns (step1Pair s₀ st (f, v)).answers f = some (coerceVal v) := by
      unfold step1Pair
      simp only [hres, Bool.false_eq_true, if_neg, ite_false, hseen]
      exact getAns_setAns_self st.answers f (coerceVal v)
    rw [extractFlat_answers_preserved l2 (wfSt_step s₀ (f, v) hwf)
      (by rw [hstep]; rfl)]
    exact hstep
  | cons x l1' ih =>
    obtain ⟨s, g, w⟩ := x
    simp only [List.cons_append]
    show getAns (extractFlat (step1Pair s st (g, w)) (l1' ++ (s₀, f, v) :: l2)).answers f = _
    have hg : (g == f) = false := hl1 (s, g, w) (List.mem_cons_self _ _)
    exact ih (wfSt_step s (g, w) hwf)
      (by rw [step1Pair_answers_other s (g, w) hg]; exact hn)
      (fun x hx => hl1 x (List.mem_cons_of_mem _ hx))

/-- Conflict warnings: once `f` holds a value different (as a JS strict
comparison) from the raw string of a later assignment to `f`, scanning that
assignment appends a warning quoting `f`, and it survives to the end. -/
theorem extractFlat_conflict_warning {st : ExtractSt} {f v' s' : String}
    {val : Value} {L : List (String × String × String)}
    (hwf : wfSt st) (hv : getAns st.answers f = some val)
    (hres : reservedFields.contains f = false)
    (hne : val ≠ .str v') (hmem : (s', f, v') ∈ L) :
    ∃ w ∈ (extractFlat st L).warnings,
      strIncludes w ("\"" ++ f ++ "\"") = true := by
  induction L generalizing st with
  | nil => simp at hmem
  | cons y L' ih =>
    obtain ⟨sy, gy, wy⟩ := y
    by_cases hy : gy = f ∧ wy = v'
    · obtain ⟨hy2, hy3⟩ := hy
      rw [hy2, hy3]
      have hseen : st.seen.contains f = true := by
        rw [hwf f, hv]; rfl
      have hguard : ¬(getAns st.answers f = some (.str v')) := by
        rw [hv]
        intro hcon
        exact hne (Option.some.inj hcon)
      have hmsg :
          conflictMsg f (valueToString (getAns st.answers f)) v' sy ∈
            (step1Pair sy st (f, v')).warnings := by
        unfold step1Pair
        simp only [hres, Bool.false_eq_true, if_neg, ite_false, hseen, if_pos,
          ite_true, hguard]
        exact List.mem_append_right _ (List.mem_singleton.mpr rfl)
      refine ⟨conflictMsg f (valueToString (getAns st.answers f)) v' sy,
        extractFlat_warnings_mono L' hmsg, ?_⟩
      exact conflictMsg_includes_field f _ _ _
    · have hmem' : (s', f, v') ∈ L' := by
        rcases List.mem_cons.mp hmem with h | h
        · exfalso
          rw [Prod.mk.injEq, Prod.mk.injEq] at h
          exact hy ⟨h.2.1.symm, h.2.2.symm⟩
        · exact h
      exact ih (wfSt_step sy (gy, wy) hwf)
        (by rw [step1Pair_answers_preserved sy (gy, wy) hwf (by rw [hv]; rfl)]
            exact hv)
        hmem'

theorem extractFlat_append (A B : List (String × String × String))
    (st : ExtractSt) :
    extractFlat st (A ++ B) = extractFlat (extractFlat st A) B := by
  induction A generalizing st with
  | nil => rfl
  | cons a A' ihA =>
    obtain ⟨s, f, v⟩ := a
    simp only [List.cons_append]
    exact ihA (step1Pair s st (f, v))

/-- The nested evidence/pairs loop of step 1 equals the scan of the
flattened pair stream. -/
theorem extractAnswers_eq_flat (evidence : List Evidence) :
    extractAnswers evidence = extractFlat ⟨[], [], []⟩ (flatPairs evidence) := by
  suffices h : ∀ (ev : List Evidence) (st : ExtractSt),
      ev.foldl (fun st e => (parseImplies e.implies).foldl (step1Pair e.source) st) st
        = extractFlat st (flatPairs ev) by
    exact h evidence ⟨[], [], []⟩
  intro ev
  induction ev with
  | nil => intro st; rfl
  | cons e ev' ih =>
    intro st
    simp only [List.foldl_cons, flatPairs, List.flatMap_cons]
    rw [extractFlat_append]
    rw [ih]
    congr 1
    generalize parseImplies e.implies = pairs
    induction pairs generalizing st with
    | nil => rfl
    | cons p ps ihp =>
      simp only [List.foldl_cons, List.map_cons]
      exact ihp (step1Pair e.source st p)

/-! ## Helper lemmas: projections of resolveDetection -/

theorem resolveDetection_type (ev : List Evidence) (b : Bool) :
    (resolveDetection ev b).type = (resolveType ev b (extractAnswers ev).answers).1 :=
  rfl

theorem resolveDetection_confidence (ev : List Evidence) (b : Bool) :
    (resolveDetection ev b).confidence
      = (resolveType ev b (extractAnswers ev).answers).2.1 :=
  rfl

theorem resolveDetection_warnings (ev : List Evidence) (b : Bool) :
    (resolveDetection ev b).warnings
      = (resolveTestingCombinations ev
          (resolveType ev b (extractAnswers ev).answers).2.2
          (extractAnswers ev).warnings).2 :=
  rfl

theorem resolveDetection_answers (ev : List Evidence) (b : Bool) :
    (resolveDetection ev b).answers
      = (if (resolveType ev b (extractAnswers ev).answers).1 == "frontend" then
          match getAns (resolveTestingCombinations ev
              (resolveType ev b (extractAnswers ev).answers).2.2
              (extractAnswers ev).warnings).1 "testing" with
          | some v =>
            delAns (setAns (resolveTestingCombinations ev
                (resolveType ev b (extractAnswers ev).answers).2.2
                (extractAnswers ev).warnings).1 "includeTesting" v) "testing"
          | none => (resolveTestingCombinations ev
              (resolveType ev b (extractAnswers ev).answers).2.2
              (extractAnswers ev).warnings).1
        else (resolveTestingCombinations ev
            (resolveType ev b (extractAnswers ev).answers).2.2
            (extractAnswers ev).warnings).1) :=
  rfl

/-! ## Claim theorems -/

/-- C1: for every evidence list and every `hasPackageJson` flag,
`resolveDetection` returns a type among the seven fixed values and a
confidence among the seven fixed tier constants; for the empty evidence list
the result is `basic` at confidence 0.3 with empty answers and warnings. -/
theorem C1_type_and_confidence_closed_sets :
    (∀ (evidence : List Evidence) (hasPackageJson : Bool),
      (resolveDetection evidence hasPackageJson).type ∈
        ["microservice", "fullstack", "frontend", "api", "devops", "library",
          "basic"] ∧
      (resolveDetection evidence hasPackageJson).confidence ∈
        [(0.95 : ℚ), 0.9, 0.85, 0.85, 0.8, 0.6, 0.3]) ∧
    (∀ b : Bool, resolveDetection [] b =
      ⟨"basic", 0.3, [], [], []⟩) := by
  constructor
  · intro ev b
    constructor
    · rw [resolveDetection_type]
      simp only [resolveType]
      split_ifs <;> simp [List.mem_cons]
    · rw [resolveDetection_confidence]
      simp only [resolveType]
      split_ifs <;> norm_num [List.mem_cons]
  · intro b
    cases b <;> rfl

/-- C6: the two-element end-to-end scenario resolves to `fullstack` at
confidence 0.9 with `framework = nextjs` and the relational default
`database = postgres`, for either value of `hasPackageJson`. -/
theorem C6_fullstack_end_to_end :
    ∀ b : Bool,
      (resolveDetection
        [⟨"framework dep", "type=fullstack-or-frontend, framework=nextjs",
          .dependency⟩,
         ⟨"orm dep", "orm=prisma", .dependency⟩] b).type = "fullstack" ∧
      (resolveDetection
        [⟨"framework dep", "type=fullstack-or-frontend, framework=nextjs",
          .dependency⟩,
         ⟨"orm dep", "orm=prisma", .dependency⟩] b).confidence = 0.9 ∧
      getAns (resolveDetection
        [⟨"framework dep", "type=fullstack-or-frontend, framework=nextjs",
          .dependency⟩,
         ⟨"orm dep", "orm=prisma", .dependency⟩] b).answers "framework"
        = some (.str "nextjs") ∧
      getAns (resolveDetection
        [⟨"framework dep", "type=fullstack-or-frontend, framework=nextjs",
          .dependency⟩,
         ⟨"orm dep", "orm=prisma", .dependency⟩] b).answers "database"
        = some (.str "postgres") := by
  intro b
  cases b <;> exact ⟨by decide, by rfl, by decide, by decide⟩

/-- C5 counterexample: a folder-structure evidence whose `implies` asserts
`type=microservice` does not trigger the microservice tier — the claim as
stated ranges over every evidence, but the resolver only consults dependency
and config-file evidence here. -/
theorem C5_counterexample :
    (resolveDetection [⟨"folder", "type=microservice", .folderStructure⟩]
      false).type = "basic" ∧
    (resolveDetection [⟨"folder", "type=microservice", .folderStructure⟩]
      false).type ≠ "microservice" ∧
    (resolveDetection [⟨"folder", "type=microservice", .folderStructure⟩]
      false).confidence = 0.3 := by
  exact ⟨by decide, by decide, by rfl⟩

/-- C5 (amended): for every evidence list containing a dependency or
config-file evidence whose `implies` contains `type=microservice`,
`resolveDetection` returns `microservice` at confidence 0.95, whatever other
evidence is present. -/
theorem C5_amended_microservice_priority (evidence : List Evidence) (b : Bool)
    (e : Evidence) (hmem : e ∈ evidence)
    (hcat : e.category = .dependency ∨ e.category = .configFile)
    (himp : strIncludes e.implies "type=microservice" = true) :
    (resolveDetection evidence b).type = "microservice" ∧
    (resolveDetection evidence b).confidence = 0.95 := by
  have hcond :
      ((evidence.any fun ev =>
          ev.category == Category.dependency &&
            strIncludes ev.implies ("type=" ++ "microservice")) ||
        (evidence.any fun ev =>
          ev.category == Category.configFile &&
            strIncludes ev.implies "type=microservice")) = true := by
    have happ : ("type=" : String) ++ "microservice" = "type=microservice" := rfl
    rw [happ, Bool.or_eq_true]
    rcases hcat with hc | hc
    · exact Or.inl (List.any_eq_true.mpr ⟨e, hmem, by rw [hc, himp]; rfl⟩)
    · exact Or.inr (List.any_eq_true.mpr ⟨e, hmem, by rw [hc, himp]; rfl⟩)
  constructor
  · rw [resolveDetection_type]
    simp only [resolveType]
    rw [if_pos hcond]
  · rw [resolveDetection_confidence]
    simp only [resolveType]
    rw [if_pos hcond]

/-- C5 witness: a concrete NestJS-style dependency plus a weaker
folder hint indeed resolve to `microservice` at 0.95. -/
theorem C5_amended_witness :
    (resolveDetection
      [⟨"@nestjs/core dependency", "type=microservice", .dependency⟩,
       ⟨"src/ folder", "frontend-hint", .folderStructure⟩] true).type
        = "microservice" ∧
    (resolveDetection
      [⟨"@nestjs/core dependency", "type=microservice", .dependency⟩,
       ⟨"src/ folder", "frontend-hint", .folderStructure⟩] true).confidence
        = 0.95 :=
  C5_amended_microservice_priority _ true
    ⟨"@nestjs/core dependency", "type=microservice", .dependency⟩
    (List.mem_cons_self _ _) (Or.inl rfl) (by decide)

/-- C2: in the answer extraction of `resolveDetection`, the first assignment
of a non-reserved field in evidence scan order wins; a later assignment of a
different value is not applied and appends a warning naming the field.  In
particular, for `[A=x (dependency), A=y (config-file)]` the resolved answer
is `x` and a warning names `A`. -/
theorem C2_first_assignment_wins (evidence : List Evidence)
    (f v s₀ s' v' : String) (l1 l2 : List (String × String × String))
    (hres : reservedFields.contains f = false)
    (hsplit : flatPairs evidence = l1 ++ (s₀, f, v) :: l2)
    (hfirst : ∀ x ∈ l1, (x.2.1 == f) = false) :
    getAns (extractAnswers evidence).answers f = some (coerceVal v) ∧
    ((s', f, v') ∈ l2 → coerceVal v ≠ .str v' →
      ∃ w ∈ (extractAnswers evidence).warnings,
        strIncludes w ("\"" ++ f ++ "\"") = true) ∧
    getAns (resolveDetection [⟨"e1", "A=x", .dependency⟩,
      ⟨"e2", "A=y", .configFile⟩] false).answers "A" = some (.str "x") ∧
    ∃ w ∈ (resolveDetection [⟨"e1", "A=x", .dependency⟩,
      ⟨"e2", "A=y", .configFile⟩] false).warnings,
      strIncludes w ("\"" ++ "A" ++ "\"") = true := by
  refine ⟨?_, ?_, by decide, by decide⟩
  · rw [extractAnswers_eq_flat, hsplit]
    exact extractFlat_first_wins wfSt_init rfl hres hfirst
  · intro hmem hne
    rw [extractAnswers_eq_flat, hsplit]
    rw [show l1 ++ (s₀, f, v) :: l2 = (l1 ++ [(s₀, f, v)]) ++ l2 by
      rw [List.append_assoc]; rfl]
    rw [extractFlat_append]
    have hwf1 : wfSt (extractFlat ⟨[], [], []⟩ (l1 ++ [(s₀, f, v)])) :=
      wfSt_extractFlat _ wfSt_init
    have hv1 : getAns (extractFlat ⟨[], [], []⟩ (l1 ++ [(s₀, f, v)])).answers f
        = some (coerceVal v) :=
      extractFlat_first_wins wfSt_init rfl hres hfirst
    exact extractFlat_conflict_warning hwf1 hv1 hres hne hmem

/-- C2 witness: the concrete two-evidence conflict, instantiating the
universal statement with the split of its flattened pair stream. -/
theorem C2_first_assignment_wins_witness :
    getAns (extractAnswers [⟨"e1", "A=x", .dependency⟩,
      ⟨"e2", "A=y", .configFile⟩]).answers "A" = some (coerceVal "x") ∧
    (("e2", "A", "y") ∈ [("e2", "A", "y")] → coerceVal "x" ≠ .str "y" →
      ∃ w ∈ (extractAnswers [⟨"e1", "A=x", .dependency⟩,
        ⟨"e2", "A=y", .configFile⟩]).warnings,
        strIncludes w ("\"" ++ "A" ++ "\"") = true) ∧
    getAns (resolveDetection [⟨"e1", "A=x", .dependency⟩,
      ⟨"e2", "A=y", .configFile⟩] false).answers "A" = some (.str "x") ∧
    ∃ w ∈ (resolveDetection [⟨"e1", "A=x", .dependency⟩,
      ⟨"e2", "A=y", .configFile⟩] false).warnings,
      strIncludes w ("\"" ++ "A" ++ "\"") = true :=
  C2_first_assignment_wins
    [⟨"e1", "A=x", .dependency⟩, ⟨"e2", "A=y", .configFile⟩]
    "A" "x" "e1" "e2" "y" [] [("e2", "A", "y")]
    (by decide) (by decide) (by decide)

/-- C9: a conflict warning fires exactly when the later raw string differs
from the stored coerced value.  A field assigned `"true"` (or `"false"`)
twice still warns, because the stored value is a native boolean while the
duplicate compares as a raw string; an identical duplicate of any other
string produces no warning. -/
theorem C9_boolean_coercion_conflict (evidence : List Evidence)
    (f s₀ s' : String) (l1 l2 : List (String × String × String))
    (hres : reservedFields.contains f = false)
    (hfirst : ∀ x ∈ l1, (x.2.1 == f) = false) :
    (flatPairs evidence = l1 ++ (s₀, f, "true") :: l2 →
      (s', f, "true") ∈ l2 →
      ∃ w ∈ (extractAnswers evidence).warnings,
        strIncludes w ("\"" ++ f ++ "\"") = true) ∧
    (flatPairs evidence = l1 ++ (s₀, f, "false") :: l2 →
      (s', f, "false") ∈ l2 →
      ∃ w ∈ (extractAnswers evidence).warnings,
        strIncludes w ("\"" ++ f ++ "\"") = true) ∧
    (∀ s1 s2 v : String, (v == "true") = false → (v == "false") = false →
      (extractFlat ⟨[], [], []⟩ [(s1, f, v), (s2, f, v)]).warnings = []) ∧
    (∃ w ∈ (resolveDetection [⟨"a", "flag=true", .dependency⟩,
        ⟨"b", "flag=true", .dependency⟩] false).warnings,
      strIncludes w ("\"" ++ "flag" ++ "\"") = true) ∧
    getAns (resolveDetection [⟨"a", "flag=true", .dependency⟩,
      ⟨"b", "flag=true", .dependency⟩] false).answers "flag"
        = some (.bool true) ∧
    (resolveDetection [⟨"a", "x=foo", .dependency⟩,
      ⟨"b", "x=foo", .dependency⟩] false).warnings = [] := by
  refine ⟨?_, ?_, ?_, by decide, by decide, by decide⟩
  · intro hsplit hmem
    rw [extractAnswers_eq_flat, hsplit]
    rw [show l1 ++ (s₀, f, "true") :: l2 = (l1 ++ [(s₀, f, "true")]) ++ l2 by
      rw [List.append_assoc]; rfl]
    rw [extractFlat_append]
    exact extractFlat_conflict_warning (wfSt_extractFlat _ wfSt_init)
      (extractFlat_first_wins wfSt_init rfl hres hfirst) hres
      (by decide) hmem
  · intro hsplit hmem
    rw [extractAnswers_eq_flat, hsplit]
    rw [show l1 ++ (s₀, f, "false") :: l2 = (l1 ++ [(s₀, f, "false")]) ++ l2 by
      rw [List.append_assoc]; rfl]
    rw [extractFlat_append]
    exact extractFlat_conflict_warning (wfSt_extractFlat _ wfSt_init)
      (extractFlat_first_wins wfSt_init rfl hres hfirst) hres
      (by decide) hmem
  · intro s1 s2 v hv1 hv2
    have hcv : coerceVal v = .str v := by
      unfold coerceVal
      rw [hv1, hv2]
      rfl
    show (extractFlat (step1Pair s1 ⟨[], [], []⟩ (f, v)) [(s2, f, v)]).warnings = []
    have hst1 : step1Pair s1 ⟨[], [], []⟩ (f, v)
        = ⟨[(f, coerceVal v)], [], [f]⟩ := by
      unfold step1Pair
      simp only [hres, Bool.false_eq_true, if_neg, ite_false]
      rfl
    rw [hst1]
    show (step1Pair s2 ⟨[(f, coerceVal v)], [], [f]⟩ (f, v)).warnings = []
    unfold step1Pair
    have hseen : ([f] : List String).contains f = true := by
      rw [List.contains_cons]
      simp
    have hget : getAns [(f, coerceVal v)] f = some (.str v) := by
      rw [getAns_cons_hit (by simp), hcv]
    simp only [hres, Bool.false_eq_true, if_neg, ite_false, hseen, if_pos,
      ite_true, hget]

/-- C9 witness: the `"true"`-duplicate branch at a concrete evidence list. -/
theorem C9_boolean_coercion_conflict_witness :
    ∃ w ∈ (extractAnswers [⟨"a", "flag=true", .dependency⟩,
      ⟨"b", "flag=true", .dependency⟩]).warnings,
      strIncludes w ("\"" ++ "flag" ++ "\"") = true :=
  (C9_boolean_coercion_conflict
    [⟨"a", "flag=true", .dependency⟩, ⟨"b", "flag=true", .dependency⟩]
    "flag" "a" "b" [] [("b", "flag", "true")]
    (by decide) (by decide)).1 (by decide) (by decide)

/-! ## Helper lemmas: evaluator on bare identifiers -/

theorem isWordC_not_ws {c : Char} (h : isWordC c = true) : isWsC c = false := by
  by_contra hw
  rw [Bool.not_eq_false] at hw
  simp only [isWsC, Bool.or_eq_true, beq_iff_eq] at hw
  rcases hw with ⟨⟨⟨⟨h1 | h1⟩ | h1⟩ | h1⟩ | h1⟩ | h1 <;> subst h1 <;>
    exact absurd h (by decide)

theorem dropWhile_eq_nil_of_all {p : Char → Bool} {l : List Char}
    (h : ∀ c ∈ l, p c = true) : l.dropWhile p = [] := by
  induction l with
  | nil => rfl
  | cons c cs ih =>
    rw [List.dropWhile_cons, if_pos (h c (List.mem_cons_self _ _))]
    exact ih fun x hx => h x (List.mem_cons_of_mem _ hx)

theorem dropWhile_eq_self_of_none {p : Char → Bool} {l : List Char}
    (h : ∀ c ∈ l, p c = false) : l.dropWhile p = l := by
  cases l with
  | nil => rfl
  | cons c cs =>
    rw [List.dropWhile_cons, if_neg]
    rw [h c (List.mem_cons_self _ _)]
    exact Bool.false_ne_true

theorem trimChars_eq_self_of_no_ws {l : List Char}
    (h : ∀ c ∈ l, isWsC c = false) : trimChars l = l := by
  unfold trimChars
  rw [dropWhile_eq_self_of_none h]
  rw [dropWhile_eq_self_of_none fun c hc => h c (List.mem_reverse.mp hc)]
  exact List.reverse_reverse l

theorem matchIdentOp_none_of_all_word {l : List Char} (o : Char)
    (os : List Char) (h : ∀ c ∈ l, isWordC c = true)
    (ho : isWordC o = false) :
    matchIdentOp (o :: os) l = none := by
  cases l with
  | nil => rfl
  | cons c cs =>
    have h1 : cs.dropWhile isWordC = [] :=
      dropWhile_eq_nil_of_all fun x hx => h x (List.mem_cons_of_mem _ hx)
    simp only [matchIdentOp, h c (List.mem_cons_self _ _), if_pos, ite_true, h1]
    rfl

/-- C4: the evaluator contract — the five concrete contract cases, and in
general a bare identifier (a non-empty all-word-character expression)
evaluates to false exactly when the bound value is `undefined`, `null`,
`false`, the empty string, or the string `"false"`. -/
theorem C4_evaluator_contract (name : String) (ctx : String → Option JSVal)
    (hne : name.data ≠ []) (hword : ∀ c ∈ name.data, isWordC c = true) :
    evaluateCondition "x === 'v'"
      (fun k => if k == "x" then some (.str "v") else none) = true ∧
    evaluateCondition "x !== 'v'"
      (fun k => if k == "x" then some (.str "v") else none) = false ∧
    evaluateCondition "flag"
      (fun k => if k == "flag" then some (.bool false) else none) = false ∧
    evaluateCondition "flag" (fun _ => none) = false ∧
    evaluateCondition "flag"
      (fun k => if k == "flag" then some (.str "anything") else none) = true ∧
    (evaluateCondition name ctx = false ↔
      ctx name = none ∨ ctx name = some .null ∨
      ctx name = some (.bool false) ∨ ctx name = some (.str "") ∨
      ctx name = some (.str "false")) := by
  refine ⟨by decide, by decide, by decide, by decide, by decide, ?_⟩
  have hm1 : matchIdentOp ['=', '=', '='] name.data = none :=
    matchIdentOp_none_of_all_word '=' _ hword (by decide)
  have hm2 : matchIdentOp ['!', '=', '='] name.data = none :=
    matchIdentOp_none_of_all_word '!' _ hword (by decide)
  have htrim : trimChars name.data = name.data :=
    trimChars_eq_self_of_no_ws fun c hc => isWordC_not_ws (hword c hc)
  have heval : evaluateCondition name ctx = bareTruthy (ctx name) := by
    unfold evaluateCondition
    simp only [hm1, hm2, htrim]
  rw [heval]
  cases hctx : ctx name with
  | none => simp [bareTruthy]
  | some v =>
    cases v with
    | str s =>
      simp only [bareTruthy, Bool.not_eq_false', Bool.or_eq_true, beq_iff_eq]
      constructor
      · rintro (h | h) <;> simp [h]
      · rintro (h | h | h | h | h) <;> simp_all
    | bool b => cases b <;> simp [bareTruthy]
    | num n => simp [bareTruthy]
    | null => simp [bareTruthy]

/-- C4 witness: the bare-identifier characterization at `flag` bound to a
string, together with the contract cases. -/
theorem C4_evaluator_contract_witness :
    evaluateCondition "x === 'v'"
      (fun k => if k == "x" then some (.str "v") else none) = true ∧
    evaluateCondition "x !== 'v'"
      (fun k => if k == "x" then some (.str "v") else none) = false ∧
    evaluateCondition "flag"
      (fun k => if k == "flag" then some (.bool false) else none) = false ∧
    evaluateCondition "flag" (fun _ => none) = false ∧
    evaluateCondition "flag"
      (fun k => if k == "flag" then some (.str "anything") else none) = true ∧
    (evaluateCondition "flag"
        (fun k => if k == "flag" then some (.str "anything") else none) = false ↔
      (fun k => if k == "flag" then some (JSVal.str "anything") else none) "flag"
          = none ∨
      (fun k => if k == "flag" then some (JSVal.str "anything") else none) "flag"
          = some .null ∨
      (fun k => if k == "flag" then some (JSVal.str "anything") else none) "flag"
          = some (.bool false) ∨
      (fun k => if k == "flag" then some (JSVal.str "anything") else none) "flag"
          = some (.str "") ∨
      (fun k => if k == "flag" then some (JSVal.str "anything") else none) "flag"
          = some (.str "false")) :=
  C4_evaluator_contract "flag"
    (fun k => if k == "flag" then some (.str "anything") else none)
    (by decide) (by decide)

/-! ## Helper lemmas: testing-combination override -/

theorem resolveTesting_vitest_cases (ev : List Evidence)
    (a : List (String × Value)) (w : List String)
    (hV : (ev.any fun e => e.source == "vitest dependency") = true)
    (hP : (ev.any fun e => e.source == "@playwright/test dependency") = true) :
    (getAns a "testing" = some (.str "vitest-playwright") ∧
      resolveTestingCombinations ev a w = (a, w)) ∨
    (getAns a "testing" ≠ some (.str "vitest-playwright") ∧
      resolveTestingCombinations ev a w =
        (setAns a "testing" (.str "vitest-playwright"),
         removeFirst (fun x => strIncludes x "\"testing\"") w)) := by
  by_cases h : getAns a "testing" = some (.str "vitest-playwright")
  · refine Or.inl ⟨h, ?_⟩
    unfold resolveTestingCombinations
    simp only [hV, hP, Bool.true_and, if_pos, ite_true, h]
  · refine Or.inr ⟨h, ?_⟩
    unfold resolveTestingCombinations
    simp only [hV, hP, Bool.true_and, if_pos, ite_true]
    rw [if_neg h]

theorem resolveTesting_jest_cases (ev : List Evidence)
    (a : List (String × Value)) (w : List String)
    (hVP : ((ev.any fun e => e.source == "vitest dependency") &&
      (ev.any fun e => e.source == "@playwright/test dependency")) = false)
    (hJ : (ev.any fun e => e.source == "jest dependency") = true)
    (hC : (ev.any fun e => e.source == "cypress dependency") = true) :
    (getAns a "testing" = some (.str "jest-cypress") ∧
      resolveTestingCombinations ev a w = (a, w)) ∨
    (getAns a "testing" ≠ some (.str "jest-cypress") ∧
      resolveTestingCombinations ev a w =
        (setAns a "testing" (.str "jest-cypress"),
         removeFirst (fun x => strIncludes x "\"testing\"") w)) := by
  by_cases h : getAns a "testing" = some (.str "jest-cypress")
  · refine Or.inl ⟨h, ?_⟩
    unfold resolveTestingCombinations
    simp only [hVP, Bool.false_eq_true, if_neg, ite_false, hJ, hC,
      Bool.true_and, if_pos, ite_true, h]
  · refine Or.inr ⟨h, ?_⟩
    unfold resolveTestingCombinations
    simp only [hVP, Bool.false_eq_true, if_neg, ite_false, hJ, hC,
      Bool.true_and, if_pos, ite_true]
    rw [if_neg h]

/-- After the testing override, the stored `testing` answer is the combined
identifier, all warnings not mentioning `"testing"` survive, and at most one
warning is removed. -/
theorem testing_override_post {ev : List Evidence}
    {a : List (String × Value)} {w : List String} {r : String}
    (hcase : (getAns a "testing" = some (.str r) ∧
        resolveTestingCombinations ev a w = (a, w)) ∨
      (getAns a "testing" ≠ some (.str r) ∧
        resolveTestingCombinations ev a w =
          (setAns a "testing" (.str r),
           removeFirst (fun x => strIncludes x "\"testing\"") w))) :
    getAns (resolveTestingCombinations ev a w).1 "testing" = some (.str r) ∧
    (∀ x ∈ w, strIncludes x "\"testing\"" = false →
      x ∈ (resolveTestingCombinations ev a w).2) ∧
    w.length ≤ (resolveTestingCombinations ev a w).2.length + 1 := by
  rcases hcase with ⟨hget, heq⟩ | ⟨hget, heq⟩
  · rw [heq]
    exact ⟨hget, fun x hx _ => hx, Nat.le_succ_of_le (Nat.le_refl _)⟩
  · rw [heq]
    refine ⟨getAns_setAns_self a "testing" (.str r), ?_, ?_⟩
    · intro x hx hnot
      exact mem_removeFirst_of_not hnot hx
    · exact length_removeFirst_ge _ w

/-- C7 counterexample: with a frontend-typed project carrying vitest,
playwright and a third conflicting testing evidence, the final
`answers.testing` is absent (it was renamed to `includeTesting`) and a
warning naming the testing field is still present — both conjuncts of the
claim fail. -/
theorem C7_counterexample :
    getAns (resolveDetection
      [⟨"nextjs dependency", "type=fullstack-or-frontend, framework=nextjs",
        .dependency⟩,
       ⟨"vitest dependency", "testing=vitest", .dependency⟩,
       ⟨"@playwright/test dependency", "testing=playwright", .dependency⟩,
       ⟨"mocha dependency", "testing=mocha", .dependency⟩] true).answers
      "testing" = none ∧
    (∃ w ∈ (resolveDetection
      [⟨"nextjs dependency", "type=fullstack-or-frontend, framework=nextjs",
        .dependency⟩,
       ⟨"vitest dependency", "testing=vitest", .dependency⟩,
       ⟨"@playwright/test dependency", "testing=playwright", .dependency⟩,
       ⟨"mocha dependency", "testing=mocha", .dependency⟩] true).warnings,
      strIncludes w "\"testing\"" = true) := by
  exact ⟨by decide, by decide⟩

/-- The claim-level consequences of the testing override for a combined
identifier `r`: the final `testing` answer (renamed to `includeTesting` for
frontend projects) holds `r`, warnings not mentioning the testing field all
survive, and at most one warning is removed. -/
theorem resolveDetection_testing_post (ev : List Evidence) (b : Bool)
    (r : String)
    (hcase : (getAns (resolveType ev b (extractAnswers ev).answers).2.2
          "testing" = some (.str r) ∧
        resolveTestingCombinations ev
          (resolveType ev b (extractAnswers ev).answers).2.2
          (extractAnswers ev).warnings
          = ((resolveType ev b (extractAnswers ev).answers).2.2,
             (extractAnswers ev).warnings)) ∨
      (getAns (resolveType ev b (extractAnswers ev).answers).2.2
          "testing" ≠ some (.str r) ∧
        resolveTestingCombinations ev
          (resolveType ev b (extractAnswers ev).answers).2.2
          (extractAnswers ev).warnings
          = (setAns (resolveType ev b (extractAnswers ev).answers).2.2
              "testing" (.str r),
             removeFirst (fun x => strIncludes x "\"testing\"")
               (extractAnswers ev).warnings))) :
    (if (resolveDetection ev b).type = "frontend" then
      getAns (resolveDetection ev b).answers "includeTesting"
     else getAns (resolveDetection ev b).answers "testing")
      = some (.str r) ∧
    (∀ w ∈ (extractAnswers ev).warnings, strIncludes w "\"testing\"" = false →
      w ∈ (resolveDetection ev b).warnings) ∧
    (extractAnswers ev).warnings.length ≤
      (resolveDetection ev b).warnings.length + 1 := by
  have hpost := testing_override_post hcase
  obtain ⟨hget, hkeep, hlen⟩ := hpost
  refine ⟨?_, ?_, ?_⟩
  · rw [resolveDetection_answers]
    by_cases hty : ((resolveType ev b (extractAnswers ev).answers).1
        == "frontend") = true
    · rw [if_pos hty, hget]
      have hfr : (resolveDetection ev b).type = "frontend" := by
        rw [resolveDetection_type]
        exact beq_iff_eq.mp hty
      rw [if_pos hfr]
      rw [getAns_delAns_other _ (by decide)]
      exact getAns_setAns_self _ _ _
    · rw [Bool.not_eq_true] at hty
      rw [hty]
      have hfr : ¬((resolveDetection ev b).type = "frontend") := by
        rw [resolveDetection_type]
        intro hcon
        rw [hcon] at hty
        simp at hty
      rw [if_neg hfr]
      simpa using hget
  · intro w hw hnot
    rw [resolveDetection_warnings]
    exact hkeep w hw hnot
  · rw [resolveDetection_warnings]
    exact hlen

/-- C7 (amended): when both members of a recognized unit/E2E pair are
present — vitest with playwright, or jest with cypress when the vitest pair
is not also present — the combined identifier for that pair ends up in
`answers.testing` (in `answers.includeTesting` when the resolved type is
`frontend`), and the override removes at most the first warning mentioning
the testing field, retaining every warning that does not mention it. -/
theorem C7_amended_testing_combination (ev : List Evidence) (b : Bool) :
    ((ev.any fun e => e.source == "vitest dependency") = true →
      (ev.any fun e => e.source == "@playwright/test dependency") = true →
      (if (resolveDetection ev b).type = "frontend" then
        getAns (resolveDetection ev b).answers "includeTesting"
       else getAns (resolveDetection ev b).answers "testing")
        = some (.str "vitest-playwright") ∧
      (∀ w ∈ (extractAnswers ev).warnings, strIncludes w "\"testing\"" = false →
        w ∈ (resolveDetection ev b).warnings) ∧
      (extractAnswers ev).warnings.length ≤
        (resolveDetection ev b).warnings.length + 1) ∧
    (((ev.any fun e => e.source == "vitest dependency") &&
        (ev.any fun e => e.source == "@playwright/test dependency")) = false →
      (ev.any fun e => e.source == "jest dependency") = true →
      (ev.any fun e => e.source == "cypress dependency") = true →
      (if (resolveDetection ev b).type = "frontend" then
        getAns (resolveDetection ev b).answers "includeTesting"
       else getAns (resolveDetection ev b).answers "testing")
        = some (.str "jest-cypress") ∧
      (∀ w ∈ (extractAnswers ev).warnings, strIncludes w "\"testing\"" = false →
        w ∈ (resolveDetection ev b).warnings) ∧
      (extractAnswers ev).warnings.length ≤
        (resolveDetection ev b).warnings.length + 1) := by
  constructor
  · intro hV hP
    exact resolveDetection_testing_post ev b "vitest-playwright"
      (resolveTesting_vitest_cases ev
        (resolveType ev b (extractAnswers ev).answers).2.2
        (extractAnswers ev).warnings hV hP)
  · intro hVP hJ hC
    exact resolveDetection_testing_post ev b "jest-cypress"
      (resolveTesting_jest_cases ev
        (resolveType ev b (extractAnswers ev).answers).2.2
        (extractAnswers ev).warnings hVP hJ hC)

/-- C7 witness: a concrete vitest + playwright project keeps
`vitest-playwright` under `testing`, and a concrete jest + cypress project
keeps `jest-cypress`, both retaining non-testing warnings. -/
theorem C7_amended_testing_combination_witness :
    ((if (resolveDetection
        [⟨"vitest dependency", "testing=vitest", .dependency⟩,
         ⟨"@playwright/test dependency", "testing=playwright", .dependency⟩]
        false).type = "frontend" then
      getAns (resolveDetection
        [⟨"vitest dependency", "testing=vitest", .dependency⟩,
         ⟨"@playwright/test dependency", "testing=playwright", .dependency⟩]
        false).answers "includeTesting"
     else getAns (resolveDetection
        [⟨"vitest dependency", "testing=vitest", .dependency⟩,
         ⟨"@playwright/test dependency", "testing=playwright", .dependency⟩]
        false).answers "testing")
      = some (.str "vitest-playwright") ∧
    (∀ w ∈ (extractAnswers
        [⟨"vitest dependency", "testing=vitest", .dependency⟩,
         ⟨"@playwright/test dependency", "testing=playwright", .dependency⟩]).warnings,
      strIncludes w "\"testing\"" = false →
      w ∈ (resolveDetection
        [⟨"vitest dependency", "testing=vitest", .dependency⟩,
         ⟨"@playwright/test dependency", "testing=playwright", .dependency⟩]
        false).warnings) ∧
    (extractAnswers
      [⟨"vitest dependency", "testing=vitest", .dependency⟩,
       ⟨"@playwright/test dependency", "testing=playwright", .dependency⟩]).warnings.length ≤
      (resolveDetection
        [⟨"vitest dependency", "testing=vitest", .dependency⟩,
         ⟨"@playwright/test dependency", "testing=playwright", .dependency⟩]
        false).warnings.length + 1) ∧
    ((if (resolveDetection
        [⟨"jest dependency", "testing=jest", .dependency⟩,
         ⟨"cypress dependency", "testing=cypress", .dependency⟩]
        false).type = "frontend" then
      getAns (resolveDetection
        [⟨"jest dependency", "testing=jest", .dependency⟩,
         ⟨"cypress dependency", "testing=cypress", .dependency⟩]
        false).answers "includeTesting"
     else getAns (resolveDetection
        [⟨"jest dependency", "testing=jest", .dependency⟩,
         ⟨"cypress dependency", "testing=cypress", .dependency⟩]
        false).answers "testing")
      = some (.str "jest-cypress") ∧
    (∀ w ∈ (extractAnswers
        [⟨"jest dependency", "testing=jest", .dependency⟩,
         ⟨"cypress dependency", "testing=cypress", .dependency⟩]).warnings,
      strIncludes w "\"testing\"" = false →
      w ∈ (resolveDetection
        [⟨"jest dependency", "testing=jest", .dependency⟩,
         ⟨"cypress dependency", "testing=cypress", .dependency⟩]
        false).warnings) ∧
    (extractAnswers
      [⟨"jest dependency", "testing=jest", .dependency⟩,
       ⟨"cypress dependency", "testing=cypress", .dependency⟩]).warnings.length ≤
      (resolveDetection
        [⟨"jest dependency", "testing=jest", .dependency⟩,
         ⟨"cypress dependency", "testing=cypress", .dependency⟩]
        false).warnings.length + 1) :=
  ⟨(C7_amended_testing_combination
      [⟨"vitest dependency", "testing=vitest", .dependency⟩,
       ⟨"@playwright/test dependency", "testing=playwright", .dependency⟩]
      false).1 (by decide) (by decide),
   (C7_amended_testing_combination
      [⟨"jest dependency", "testing=jest", .dependency⟩,
       ⟨"cypress dependency", "testing=cypress", .dependency⟩]
      false).2 (by decide) (by decide) (by decide)⟩

/-! ## Helper lemmas: single-pass variable substitution -/

theorem dropWhile_length_le (p : Char → Bool) (l : List Char) :
    (l.dropWhile p).length ≤ l.length := by
  induction l with
  | nil => exact Nat.le_refl _
  | cons c cs ih =>
    rw [List.dropWhile_cons]
    split
    · exact Nat.le_succ_of_le ih
    · exact Nat.le_refl _

theorem varMatch_length {l rest : List Char} {id : String}
    (h : varMatch l = some (id, rest)) : rest.length < l.length := by
  match l with
  | [] => exact absurd h (by simp [varMatch])
  | [c1] => exact absurd h (by simp [varMatch])
  | [c1, c2] => exact absurd h (by simp [varMatch])
  | c1 :: c2 :: c :: cs =>
    simp only [varMatch] at h
    by_cases hg : (c1 == '{' && c2 == '{' && isIdentStartC c) = true
    · rw [if_pos hg] at h
      cases hd : cs.dropWhile isIdentC with
      | nil => rw [hd] at h; exact absurd h (by simp)
      | cons d1 ds =>
        cases ds with
        | nil => rw [hd] at h; exact absurd h (by simp)
        | cons d2 rest' =>
          rw [hd] at h
          have h2 : (if (d1 == '}' && d2 == '}') = true then
              some ((⟨c :: cs.takeWhile isIdentC⟩ : String), rest') else none)
              = some (id, rest) := h
          by_cases hq : (d1 == '}' && d2 == '}') = true
          · rw [if_pos hq] at h2
            have hr : rest = rest' := by
              injection h2 with h1
              injection h1 with _ hx
              exact hx.symm
            subst hr
            have hlen : (cs.dropWhile isIdentC).length ≤ cs.length :=
              dropWhile_length_le isIdentC cs
            rw [hd] at hlen
            simp only [List.length_cons] at hlen ⊢
            omega
          · rw [if_neg hq] at h2
            exact absurd h2 (by simp)
    · rw [if_neg hg] at h
      exact absurd h (by simp)

theorem substVarsAux_fuel (lookup : String → String) :
    ∀ (f1 f2 : Nat) (l : List Char), l.length ≤ f1 → l.length ≤ f2 →
      substVarsAux lookup f1 l = substVarsAux lookup f2 l := by
  intro f1
  induction f1 with
  | zero =>
    intro f2 l h1 _
    have : l = [] := List.length_eq_zero.mp (Nat.le_zero.mp h1)
    subst this
    cases f2 <;> rfl
  | succ f1' ih =>
    intro f2 l h1 h2
    cases l with
    | nil => cases f2 <;> rfl
    | cons c rest =>
      cases f2 with
      | zero => simp at h2
      | succ f2' =>
        show (match varMatch (c :: rest) with
          | some (id, rest2) => (lookup id).data ++ substVarsAux lookup f1' rest2
          | none => c :: substVarsAux lookup f1' rest) =
          (match varMatch (c :: rest) with
          | some (id, rest2) => (lookup id).data ++ substVarsAux lookup f2' rest2
          | none => c :: substVarsAux lookup f2' rest)
        cases hm : varMatch (c :: rest) with
        | none =>
          simp only
          rw [ih f2' rest (by simpa using Nat.le_of_succ_le_succ h1)
            (by simpa using Nat.le_of_succ_le_succ h2)]
        | some pr =>
          obtain ⟨id, rest2⟩ := pr
          simp only
          have hlt := varMatch_length hm
          simp only [List.length_cons] at hlt h1 h2
          rw [ih f2' rest2 (by omega) (by omega)]

theorem takeWhile_append_of_all {p : Char → Bool} {l : List Char} {x : Char}
    (h : ∀ a ∈ l, p a = true) (hx : p x = false) (r : List Char) :
    (l ++ x :: r).takeWhile p = l := by
  induction l with
  | nil =>
    simp only [List.nil_append, List.takeWhile_cons, hx]
    rfl
  | cons a as ih =>
    simp only [List.cons_append, List.takeWhile_cons,
      h a (List.mem_cons_self _ _), ite_true]
    rw [ih fun b hb => h b (List.mem_cons_of_mem _ hb)]

theorem dropWhile_append_of_all {p : Char → Bool} {l : List Char} {x : Char}
    (h : ∀ a ∈ l, p a = true) (hx : p x = false) (r : List Char) :
    (l ++ x :: r).dropWhile p = x :: r := by
  induction l with
  | nil =>
    simp only [List.nil_append, List.dropWhile_cons, hx]
    rfl
  | cons a as ih =>
    simp only [List.cons_append, List.dropWhile_cons,
      h a (List.mem_cons_self _ _), ite_true]
    exact ih fun b hb => h b (List.mem_cons_of_mem _ hb)

/-- The substitution pass consumes a whole `\x7b\x7bident\x7d\x7d` token,
emits the looked-up replacement verbatim, and continues scanning strictly
after the token — the replacement is never rescanned. -/
theorem substVars_token (lookup : String → String) (c : Char)
    (cs rest : List Char) (hs : isIdentStartC c = true)
    (hcs : ∀ x ∈ cs, isIdentC x = true) :
    substVars lookup ('{' :: '{' :: c :: (cs ++ '}' :: '}' :: rest))
      = (lookup ⟨c :: cs⟩).data ++ substVars lookup rest := by
  have hbrace : isIdentC '}' = false := by decide
  have htake : (cs ++ '}' :: '}' :: rest).takeWhile isIdentC = cs :=
    takeWhile_append_of_all hcs hbrace _
  have hdrop : (cs ++ '}' :: '}' :: rest).dropWhile isIdentC
      = '}' :: '}' :: rest :=
    dropWhile_append_of_all hcs hbrace _
  have hm : varMatch ('{' :: '{' :: c :: (cs ++ '}' :: '}' :: rest))
      = some (⟨c :: cs⟩, rest) := by
    simp only [varMatch, hs]
    rw [hdrop, htake]
    rfl
  show substVarsAux lookup ('{' :: '{' :: c :: (cs ++ '}' :: '}' :: rest)).length
      ('{' :: '{' :: c :: (cs ++ '}' :: '}' :: rest)) = _
  have hlen : ('{' :: '{' :: c :: (cs ++ '}' :: '}' :: rest)).length
      = (cs.length + rest.length + 4) + 1 := by
    simp [List.length_cons, List.length_append]
    omega
  rw [hlen]
  show (match varMatch ('{' :: '{' :: c :: (cs ++ '}' :: '}' :: rest)) with
    | some (id, rest2) =>
      (lookup id).data ++ substVarsAux lookup (cs.length + rest.length + 4) rest2
    | none => '{' :: substVarsAux lookup (cs.length + rest.length + 4)
        ('{' :: c :: (cs ++ '}' :: '}' :: rest))) = _
  rw [hm]
  simp only
  rw [substVarsAux_fuel lookup (cs.length + rest.length + 4) rest.length rest
    (by omega) (Nat.le_refl _)]
  rfl

/-! ## Helper lemmas: conditional-block resolution -/

theorem varMatch_none_head {c : Char} {rest : List Char}
    (hc : (c == '{') = false) : varMatch (c :: rest) = none := by
  rcases rest with _ | ⟨c2, _ | ⟨c3, rest3⟩⟩ <;> simp [varMatch, hc]

theorem ifOpenMatch_none_head {c : Char} {rest : List Char}
    (hc : (c == '{') = false) : ifOpenMatch (c :: rest) = none := by
  unfold ifOpenMatch
  rw [if_neg]
  rw [show hasPrefixC ['{', '{', '#', 'i', 'f'] (c :: rest)
    = (('{' == c) && hasPrefixC ['{', '#', 'i', 'f'] rest) from rfl]
  rw [beq_symm_false hc]
  simp

theorem ifMatch_none_head {c : Char} {rest : List Char}
    (hc : (c == '{') = false) : ifMatch (c :: rest) = none := by
  unfold ifMatch
  rw [ifOpenMatch_none_head hc]

theorem ifPassAux_clean (eval : String → Bool) :
    ∀ (fuel : Nat) (s : List Char), (∀ x ∈ s, (x == '{') = false) →
      ifPassAux eval fuel s = s := by
  intro fuel
  induction fuel with
  | zero => intro s _; rfl
  | succ f ih =>
    intro s hs
    cases s with
    | nil => rfl
    | cons c rest =>
      show (match ifMatch (c :: rest) with
        | some (run, body, rest2) =>
          (if eval ⟨trimChars run⟩ then body else []) ++ ifPassAux eval f rest2
        | none => c :: ifPassAux eval f rest) = c :: rest
      rw [ifMatch_none_head (hs c (List.mem_cons_self _ _))]
      simp only
      rw [ih rest fun x hx => hs x (List.mem_cons_of_mem _ hx)]

theorem ifPass_clean (eval : String → Bool) {s : List Char}
    (hs : ∀ x ∈ s, (x == '{') = false) : ifPass eval s = s :=
  ifPassAux_clean eval s.length s hs

theorem iterIf_of_fix (eval : String → Bool) {s : List Char}
    (h : ifPass eval s = s) : ∀ n, iterIf eval n s = s := by
  intro n
  induction n with
  | zero => rfl
  | succ m ih =>
    show (let s2 := ifPass eval s; if s2 == s then s2 else iterIf eval m s2) = s
    simp only [h]
    rw [if_pos (by simp)]

theorem substVarsAux_clean (lookup : String → String) :
    ∀ (fuel : Nat) (s : List Char), (∀ x ∈ s, (x == '{') = false) →
      substVarsAux lookup fuel s = s := by
  intro fuel
  induction fuel with
  | zero => intro s _; rfl
  | succ f ih =>
    intro s hs
    cases s with
    | nil => rfl
    | cons c rest =>
      show (match varMatch (c :: rest) with
        | some (id, rest2) => (lookup id).data ++ substVarsAux lookup f rest2
        | none => c :: substVarsAux lookup f rest) = c :: rest
      rw [varMatch_none_head (hs c (List.mem_cons_self _ _))]
      simp only
      rw [ih rest fun x hx => hs x (List.mem_cons_of_mem _ hx)]

theorem substVars_clean (lookup : String → String) {s : List Char}
    (hs : ∀ x ∈ s, (x == '{') = false) : substVars lookup s = s :=
  substVarsAux_clean lookup s.length s hs

theorem collapseAux_clean :
    ∀ (fuel : Nat) (s : List Char), (∀ x ∈ s, (x == '\n') = false) →
      collapseAux fuel s = s := by
  intro fuel
  induction fuel with
  | zero => intro s _; rfl
  | succ f ih =>
    intro s hs
    cases s with
    | nil => rfl
    | cons c rest =>
      show (if c == '\n' && hasPrefixC ['\n', '\n'] rest then
          '\n' :: '\n' ::
            collapseAux f ((rest.drop 2).dropWhile (fun x => x == '\n'))
        else c :: collapseAux f rest) = c :: rest
      rw [if_neg (by rw [hs c (List.mem_cons_self _ _)]; simp)]
      rw [ih rest fun x hx => hs x (List.mem_cons_of_mem _ hx)]

theorem collapseBlanks_clean {s : List Char}
    (hs : ∀ x ∈ s, (x == '\n') = false) : collapseBlanks s = s :=
  collapseAux_clean s.length s hs

theorem splitAtCloser_clean {body : List Char} (post : List Char)
    (hb : ∀ x ∈ body, (x == '{') = false) :
    splitAtCloser (body ++ ifCloser ++ post) = some (body, post) := by
  induction body with
  | nil => rfl
  | cons c body' ih =>
    show splitAtCloser (c :: (body' ++ ifCloser ++ post)) = some (c :: body', post)
    have hc : hasPrefixC ifCloser (c :: (body' ++ ifCloser ++ post)) = false := by
      show (('{' == c) && _) = false
      rw [beq_symm_false (hb c (List.mem_cons_self _ _))]
      simp
    show (if hasPrefixC ifCloser (c :: (body' ++ ifCloser ++ post)) = true
        then _ else
        match splitAtCloser (body' ++ ifCloser ++ post) with
        | some (pre, post') => some (c :: pre, post')
        | none => none) = some (c :: body', post)
    rw [hc]
    simp only [Bool.false_eq_true, if_neg, ite_false]
    rw [ih fun x hx => hb x (List.mem_cons_of_mem _ hx)]

theorem takeWhile_ne_brace {cond : List Char}
    (h : ∀ x ∈ cond, (x == '}') = false) (R : List Char) :
    (cond ++ '}' :: R).takeWhile (fun x => x != '}') = cond :=
  takeWhile_append_of_all
    (fun a ha => by simp only [bne, h a ha]; rfl) (by decide) R

theorem dropWhile_ne_brace {cond : List Char}
    (h : ∀ x ∈ cond, (x == '}') = false) (R : List Char) :
    (cond ++ '}' :: R).dropWhile (fun x => x != '}') = '}' :: R :=
  dropWhile_append_of_all
    (fun a ha => by simp only [bne, h a ha]; rfl) (by decide) R

/-- The anchored `IF_BLOCK` match at a well-formed `\x7b\x7b#if \x7d\x7d`
marker: the raw condition run is the space plus the condition text, the lazy
body extends to the first closing marker. -/
theorem ifMatch_marker {cond body : List Char} (post : List Char)
    (hcne : cond ≠ [])
    (hcnb : ∀ x ∈ cond, (x == '}') = false)
    (hb : ∀ x ∈ body, (x == '{') = false) :
    ifMatch ('{' :: '{' :: '#' :: 'i' :: 'f' :: ' ' ::
        (cond ++ '}' :: '}' :: (body ++ ifCloser ++ post)))
      = some (' ' :: cond, body, post) := by
  have hopen : ifOpenMatch ('{' :: '{' :: '#' :: 'i' :: 'f' :: ' ' ::
      (cond ++ '}' :: '}' :: (body ++ ifCloser ++ post)))
      = some (' ' :: cond, body ++ ifCloser ++ post) := by
    show (if 2 ≤ (' ' :: (cond ++ '}' :: '}' ::
          (body ++ ifCloser ++ post)).takeWhile (fun x => x != '}')).length then
        match (cond ++ '}' :: '}' ::
            (body ++ ifCloser ++ post)).dropWhile (fun x => x != '}') with
        | d1 :: d2 :: rest =>
          if (d1 == '}' && d2 == '}') = true then
            some (' ' :: (cond ++ '}' :: '}' ::
              (body ++ ifCloser ++ post)).takeWhile (fun x => x != '}'), rest)
          else none
        | _ => none
      else none) = some (' ' :: cond, body ++ ifCloser ++ post)
    rw [takeWhile_ne_brace hcnb, dropWhile_ne_brace hcnb]
    rw [if_pos (by
      cases cond with
      | nil => exact absurd rfl hcne
      | cons a as => simp [List.length_cons]
      )]
    rfl
  unfold ifMatch
  rw [hopen]
  simp only
  rw [splitAtCloser_clean post hb]

theorem ifPassAux_pre (eval : String → Bool) {pre : List Char}
    (hpre : ∀ x ∈ pre, (x == '{') = false) :
    ∀ (f : Nat) (R : List Char),
      ifPassAux eval (f + pre.length) (pre ++ R) = pre ++ ifPassAux eval f R := by
  induction pre with
  | nil => intro f R; rfl
  | cons c pre' ih =>
    intro f R
    show ifPassAux eval (f + (pre'.length + 1)) (c :: (pre' ++ R)) = _
    rw [show f + (pre'.length + 1) = (f + pre'.length) + 1 from rfl]
    show (match ifMatch (c :: (pre' ++ R)) with
      | some (run, body, rest2) =>
        (if eval ⟨trimChars run⟩ then body else []) ++
          ifPassAux eval (f + pre'.length) rest2
      | none => c :: ifPassAux eval (f + pre'.length) (pre' ++ R))
      = c :: (pre' ++ ifPassAux eval f R)
    rw [ifMatch_none_head (hpre c (List.mem_cons_self _ _))]
    simp only
    rw [ih (fun x hx => hpre x (List.mem_cons_of_mem _ hx)) f R]

theorem trimChars_space_cons {cond : List Char}
    (h1 : cond.dropWhile isWsC = cond)
    (h2 : cond.reverse.dropWhile isWsC = cond.reverse) :
    trimChars (' ' :: cond) = cond := by
  unfold trimChars
  rw [show (' ' :: cond).dropWhile isWsC = cond.dropWhile isWsC from by
    rw [List.dropWhile_cons, if_pos (by decide)]]
  rw [h1, h2]
  exact List.reverse_reverse cond

/-- One `IF_BLOCK` pass over a clean prefix, a single well-formed block and a
clean remainder: the prefix is copied, the block is resolved by the trimmed
condition, the remainder is copied. -/
theorem ifPass_single_block (eval : String → Bool)
    {pre cond body post : List Char}
    (hpre : ∀ x ∈ pre, (x == '{') = false)
    (hcne : cond ≠ [])
    (hcnb : ∀ x ∈ cond, (x == '}') = false)
    (hb : ∀ x ∈ body, (x == '{') = false)
    (hpost : ∀ x ∈ post, (x == '{') = false) :
    ifPass eval (pre ++ '{' :: '{' :: '#' :: 'i' :: 'f' :: ' ' ::
        (cond ++ '}' :: '}' :: (body ++ ifCloser ++ post)))
      = pre ++ (if eval ⟨trimChars (' ' :: cond)⟩ then body else []) ++ post := by
  unfold ifPass
  rw [show (pre ++ '{' :: '{' :: '#' :: 'i' :: 'f' :: ' ' ::
      (cond ++ '}' :: '}' :: (body ++ ifCloser ++ post))).length
    = ('{' :: '{' :: '#' :: 'i' :: 'f' :: ' ' ::
      (cond ++ '}' :: '}' :: (body ++ ifCloser ++ post))).length + pre.length
    from by rw [List.length_append, Nat.add_comm]]
  rw [ifPassAux_pre eval hpre]
  conv_rhs => rw [List.append_assoc]
  congr 1
  show (match ifMatch ('{' :: '{' :: '#' :: 'i' :: 'f' :: ' ' ::
      (cond ++ '}' :: '}' :: (body ++ ifCloser ++ post))) with
    | some (run, bd, rest2) =>
      (if eval ⟨trimChars run⟩ then bd else []) ++
        ifPassAux eval ('{' :: '#' :: 'i' :: 'f' :: ' ' ::
          (cond ++ '}' :: '}' :: (body ++ ifCloser ++ post))).length rest2
    | none => '{' :: ifPassAux eval ('{' :: '#' :: 'i' :: 'f' :: ' ' ::
        (cond ++ '}' :: '}' :: (body ++ ifCloser ++ post))).length
        ('{' :: '#' :: 'i' :: 'f' :: ' ' ::
          (cond ++ '}' :: '}' :: (body ++ ifCloser ++ post))))
    = (if eval ⟨trimChars (' ' :: cond)⟩ then body else []) ++ post
  rw [ifMatch_marker post hcne hcnb hb]
  simp only
  rw [ifPassAux_clean eval _ post hpost]

/-- Rendering a template made of a brace-free prefix, a single well-formed
`\x7b\x7b#if\x7d\x7d` block and a brace-free remainder: the body is kept
exactly when the condition evaluates true, the whole block (both markers
included) is deleted otherwise, and the renderer's final step collapses any
run of three or more newlines of the result to two. -/
theorem renderTemplate_single_block (ctx : String → Option String)
    (pre cond body post : String)
    (hpre1 : ∀ c ∈ pre.data, (c == '{') = false)
    (hb1 : ∀ c ∈ body.data, (c == '{') = false)
    (hpo1 : ∀ c ∈ post.data, (c == '{') = false)
    (hcne : cond.data ≠ [])
    (hcnb : ∀ c ∈ cond.data, (c == '}') = false)
    (hct1 : cond.data.dropWhile isWsC = cond.data)
    (hct2 : cond.data.reverse.dropWhile isWsC = cond.data.reverse) :
    renderTemplate
      (pre ++ "\x7b\x7b#if " ++ cond ++ "\x7d\x7d" ++ body ++
        "\x7b\x7b/if\x7d\x7d" ++ post) ctx
      = ⟨collapseBlanks
          (pre ++ (if evaluateCondition cond (fun k => (ctx k).map JSVal.str)
            then body else "") ++ post).data⟩ := by
  have hdata : (pre ++ "\x7b\x7b#if " ++ cond ++ "\x7d\x7d" ++ body ++
      "\x7b\x7b/if\x7d\x7d" ++ post).data
      = pre.data ++ '{' :: '{' :: '#' :: 'i' :: 'f' :: ' ' ::
        (cond.data ++ '}' :: '}' :: (body.data ++ ifCloser ++ post.data)) := by
    simp only [String.data_append]
    simp [ifCloser, List.append_assoc]
  have heta : (⟨cond.data⟩ : String) = cond := rfl
  set evalc := fun (c : String) =>
    evaluateCondition c (fun k => (ctx k).map JSVal.str) with hevalc
  have hifpass : ifPass evalc (pre.data ++ '{' :: '{' :: '#' :: 'i' :: 'f' :: ' ' ::
      (cond.data ++ '}' :: '}' :: (body.data ++ ifCloser ++ post.data)))
      = pre.data ++ (if evalc cond then body.data else []) ++ post.data := by
    rw [ifPass_single_block evalc hpre1 hcne hcnb hb1 hpo1]
    rw [trimChars_space_cons hct1 hct2, heta]
  have hclean1 : ∀ x ∈ pre.data ++ (if evalc cond then body.data else []) ++
      post.data, (x == '{') = false := by
    intro x hx
    rcases List.mem_append.mp hx with hx | hx
    · rcases List.mem_append.mp hx with hx | hx
      · exact hpre1 x hx
      · split at hx
        · exact hb1 x hx
        · simp at hx
    · exact hpo1 x hx
  have hiter : iterIf evalc 5
      (pre.data ++ '{' :: '{' :: '#' :: 'i' :: 'f' :: ' ' ::
        (cond.data ++ '}' :: '}' :: (body.data ++ ifCloser ++ post.data)))
      = pre.data ++ (if evalc cond then body.data else []) ++ post.data := by
    show (let s2 := ifPass evalc _
      if s2 == (pre.data ++ '{' :: '{' :: '#' :: 'i' :: 'f' :: ' ' ::
        (cond.data ++ '}' :: '}' :: (body.data ++ ifCloser ++ post.data)))
      then s2 else iterIf evalc 4 s2) = _
    simp only [hifpass]
    rw [iterIf_of_fix evalc (ifPass_clean evalc hclean1) 4]
    exact ite_self _
  show (⟨collapseBlanks (substVars (fun k => (ctx k).getD "")
      (iterIf evalc 5 (pre ++ "\x7b\x7b#if " ++ cond ++ "\x7d\x7d" ++ body ++
        "\x7b\x7b/if\x7d\x7d" ++ post).data))⟩ : String) = _
  rw [hdata, hiter, substVars_clean _ hclean1]
  show (⟨collapseBlanks
      (pre.data ++ (if evalc cond then body.data else []) ++ post.data)⟩ : String)
    = ⟨collapseBlanks (pre ++ (if evalc cond then body else "") ++ post).data⟩
  cases hev : evalc cond <;>
    · simp only [hev, Bool.false_eq_true, if_neg, ite_false, ite_true]
      exact congrArg (fun l => (⟨collapseBlanks l⟩ : String))
        (by simp [String.data_append])

end AISkill

namespace AISkill

/-- C10: substitution is single-pass and treats context values as inert
text.  The substitution scanner emits a replacement verbatim and continues
strictly after the consumed token (never rescanning the replacement); all
conditional passes complete before substitution starts; concretely, a
context value containing `\x7b\x7b#if\x7d\x7d` markers or a variable token
appears verbatim in the output, unevaluated and unsubstituted. -/
theorem C10_substitution_inert (lookup : String → String)
    (context : String → Option String) (template : String)
    (c : Char) (cs rest : List Char)
    (hs : isIdentStartC c = true) (hcs : ∀ x ∈ cs, isIdentC x = true) :
    substVars lookup ('{' :: '{' :: c :: (cs ++ '}' :: '}' :: rest))
      = (lookup ⟨c :: cs⟩).data ++ substVars lookup rest ∧
    renderTemplate template context
      = ⟨collapseBlanks (substVars (fun k => (context k).getD "")
          (iterIf (fun cond => evaluateCondition cond
            (fun k => (context k).map JSVal.str)) 5 template.data))⟩ ∧
    renderTemplate "\x7b\x7ba\x7d\x7d"
      (fun k => if k == "a" then some "\x7b\x7b#if b\x7d\x7dY\x7b\x7b/if\x7d\x7d"
        else if k == "b" then some "true" else none)
      = "\x7b\x7b#if b\x7d\x7dY\x7b\x7b/if\x7d\x7d" ∧
    interpolateSimple "\x7b\x7ba\x7d\x7d"
      (fun k => if k == "a" then some "\x7b\x7bb\x7d\x7d"
        else if k == "b" then some "X" else none)
      = "\x7b\x7bb\x7d\x7d" := by
  exact ⟨substVars_token lookup c cs rest hs hcs, rfl, by decide, by decide⟩

/-- C10 witness: the scanner equation at the concrete token `\x7b\x7bab\x7d\x7dtail`
with a lookup whose value itself is a token. -/
theorem C10_substitution_inert_witness :
    substVars (fun _ => "\x7b\x7bz\x7d\x7d")
        ('{' :: '{' :: 'a' :: (['b'] ++ '}' :: '}' :: ['t']))
      = ((fun (_ : String) => ("\x7b\x7bz\x7d\x7d" : String)) (⟨'a' :: ['b']⟩ : String)).data
          ++ substVars (fun _ => "\x7b\x7bz\x7d\x7d") ['t'] ∧
    renderTemplate "x" (fun _ => none)
      = ⟨collapseBlanks (substVars (fun k => ((fun (_ : String) =>
          (none : Option String)) k).getD "")
          (iterIf (fun cond => evaluateCondition cond
            (fun k => ((fun (_ : String) => (none : Option String)) k).map
              JSVal.str)) 5 ("x" : String).data))⟩ ∧
    renderTemplate "\x7b\x7ba\x7d\x7d"
      (fun k => if k == "a" then some "\x7b\x7b#if b\x7d\x7dY\x7b\x7b/if\x7d\x7d"
        else if k == "b" then some "true" else none)
      = "\x7b\x7b#if b\x7d\x7dY\x7b\x7b/if\x7d\x7d" ∧
    interpolateSimple "\x7b\x7ba\x7d\x7d"
      (fun k => if k == "a" then some "\x7b\x7bb\x7d\x7d"
        else if k == "b" then some "X" else none)
      = "\x7b\x7bb\x7d\x7d" :=
  C10_substitution_inert (fun _ => "\x7b\x7bz\x7d\x7d") (fun _ => none) "x"
    'a' ['b'] ['t'] (by decide) (by decide)

/-- C3 counterexample: when the outer condition of the nested template is
false, the rendered output is the leftover closing marker, not the empty
string — the block deleted by a false condition extends only to the first
closing marker, so the claim's "entire block including both markers is
deleted ... at any position, including when the outer condition is false"
fails. -/
theorem C3_counterexample :
    renderTemplate
      "\x7b\x7b#if a\x7d\x7d\x7b\x7b#if b\x7d\x7dX\x7b\x7b/if\x7d\x7d\x7b\x7b/if\x7d\x7d"
      (fun k => if k == "b" then some "true" else none)
      = "\x7b\x7b/if\x7d\x7d" ∧
    renderTemplate
      "\x7b\x7b#if a\x7d\x7d\x7b\x7b#if b\x7d\x7dX\x7b\x7b/if\x7d\x7d\x7b\x7b/if\x7d\x7d"
      (fun k => if k == "b" then some "true" else none) ≠ "" := by
  exact ⟨by decide, by decide⟩

/-- C3 (amended): a `\x7b\x7b#if\x7d\x7d` block is resolved by evaluating its
expression — the body is kept when true and the matched region (whose body
extends to the first closing marker) is deleted when false.  For every
context and every template made of a brace-free prefix, one well-formed
block and a brace-free remainder, the output is exactly the prefix, the
kept-or-dropped body and the remainder, with the renderer's final step
collapsing any run of three or more newlines to two; the claim's concrete
scenarios hold (the nested template renders to `X` when both conditions are
true and to the empty string when the outer is true and the inner absent),
but when the outer condition is false its nested closing marker survives as
leftover text. -/
theorem C3_amended_conditional_blocks (ctx : String → Option String)
    (pre cond body post : String)
    (hpre1 : ∀ c ∈ pre.data, (c == '{') = false)
    (hb1 : ∀ c ∈ body.data, (c == '{') = false)
    (hpo1 : ∀ c ∈ post.data, (c == '{') = false)
    (hcne : cond.data ≠ [])
    (hcnb : ∀ c ∈ cond.data, (c == '}') = false)
    (hct1 : cond.data.dropWhile isWsC = cond.data)
    (hct2 : cond.data.reverse.dropWhile isWsC = cond.data.reverse) :
    renderTemplate
      (pre ++ "\x7b\x7b#if " ++ cond ++ "\x7d\x7d" ++ body ++
        "\x7b\x7b/if\x7d\x7d" ++ post) ctx
      = ⟨collapseBlanks (pre ++ (if evaluateCondition cond
          (fun k => (ctx k).map JSVal.str) then body else "") ++ post).data⟩ ∧
    renderTemplate
      "\x7b\x7b#if a\x7d\x7d\x7b\x7b#if b\x7d\x7dX\x7b\x7b/if\x7d\x7d\x7b\x7b/if\x7d\x7d"
      (fun k => if k == "a" then some "true"
        else if k == "b" then some "true" else none) = "X" ∧
    renderTemplate
      "\x7b\x7b#if a\x7d\x7d\x7b\x7b#if b\x7d\x7dX\x7b\x7b/if\x7d\x7d\x7b\x7b/if\x7d\x7d"
      (fun k => if k == "a" then some "true" else none) = "" ∧
    renderTemplate
      "\x7b\x7b#if a\x7d\x7d\x7b\x7b#if b\x7d\x7dX\x7b\x7b/if\x7d\x7d\x7b\x7b/if\x7d\x7d"
      (fun k => if k == "b" then some "true" else none)
      = "\x7b\x7b/if\x7d\x7d" ∧
    renderTemplate "before \x7b\x7b#if show\x7d\x7dvisible\x7b\x7b/if\x7d\x7d after"
      (fun k => if k == "show" then some "true" else none)
      = "before visible after" ∧
    renderTemplate "before \x7b\x7b#if show\x7d\x7dvisible\x7b\x7b/if\x7d\x7d after"
      (fun _ => none) = "before  after" ∧
    renderTemplate "\x7b\x7b#if a\x7d\x7douter\x7b\x7b#if b\x7d\x7dinner\x7b\x7b/if\x7d\x7dend\x7b\x7b/if\x7d\x7d"
      (fun k => if k == "a" then some "true"
        else if k == "b" then some "true" else none) = "outerinnerend" := by
  exact ⟨renderTemplate_single_block ctx pre cond body post hpre1 hb1
    hpo1 hcne hcnb hct1 hct2,
    by decide, by decide, by decide, by decide, by decide, by decide⟩

/-- C3 witness: the single-block equation at the concrete template
`A \x7b\x7b#if a\x7d\x7dX\x7b\x7b/if\x7d\x7d B` with `a` bound to `"true"`,
together with the concrete nested scenarios. -/
theorem C3_amended_conditional_blocks_witness :
    renderTemplate
      ("A " ++ "\x7b\x7b#if " ++ "a" ++ "\x7d\x7d" ++ "X" ++
        "\x7b\x7b/if\x7d\x7d" ++ " B")
      (fun k => if k == "a" then some "true" else none)
      = ⟨collapseBlanks ("A " ++ (if evaluateCondition "a"
          (fun k => ((fun j => if j == "a" then some "true" else none) k).map
            JSVal.str) then "X" else "") ++ " B").data⟩ ∧
    renderTemplate
      "\x7b\x7b#if a\x7d\x7d\x7b\x7b#if b\x7d\x7dX\x7b\x7b/if\x7d\x7d\x7b\x7b/if\x7d\x7d"
      (fun k => if k == "a" then some "true"
        else if k == "b" then some "true" else none) = "X" ∧
    renderTemplate
      "\x7b\x7b#if a\x7d\x7d\x7b\x7b#if b\x7d\x7dX\x7b\x7b/if\x7d\x7d\x7b\x7b/if\x7d\x7d"
      (fun k => if k == "a" then some "true" else none) = "" ∧
    renderTemplate
      "\x7b\x7b#if a\x7d\x7d\x7b\x7b#if b\x7d\x7dX\x7b\x7b/if\x7d\x7d\x7b\x7b/if\x7d\x7d"
      (fun k => if k == "b" then some "true" else none)
      = "\x7b\x7b/if\x7d\x7d" ∧
    renderTemplate "before \x7b\x7b#if show\x7d\x7dvisible\x7b\x7b/if\x7d\x7d after"
      (fun k => if k == "show" then some "true" else none)
      = "before visible after" ∧
    renderTemplate "before \x7b\x7b#if show\x7d\x7dvisible\x7b\x7b/if\x7d\x7d after"
      (fun _ => none) = "before  after" ∧
    renderTemplate "\x7b\x7b#if a\x7d\x7douter\x7b\x7b#if b\x7d\x7dinner\x7b\x7b/if\x7d\x7dend\x7b\x7b/if\x7d\x7d"
      (fun k => if k == "a" then some "true"
        else if k == "b" then some "true" else none) = "outerinnerend" :=
  C3_amended_conditional_blocks
    (fun k => if k == "a" then some "true" else none) "A " "a" "X" " B"
    (by decide) (by decide) (by decide) (by decide) (by decide) (by decide)
    (by decide)

/-! ## Helper lemmas: validator -/

theorem isEmpty_false_of_mem {α : Type} {a : α} {l : List α} (h : a ∈ l) :
    l.isEmpty = false := by
  cases l with
  | nil => simp at h
  | cons x xs => rfl

theorem jGet_some_obj {raw : JVal} {k : String} {v : JVal}
    (h : jGet raw k = some v) : ∃ fs, raw = .obj fs := by
  cases raw with
  | obj fs => exact ⟨fs, rfl⟩
  | str s => exact absurd h (by simp [jGet])
  | num n => exact absurd h (by simp [jGet])
  | bool b => exact absurd h (by simp [jGet])
  | null => exact absurd h (by simp [jGet])
  | arr es => exact absurd h (by simp [jGet])

theorem contentErrors_skill_mem {cv : JVal}
    (htr : jTruthy (some cv) = true) (hobj : jIsObjectType cv = true)
    (hbad : needsStringErr (jGet cv "SKILL.md") = true) :
    "Missing or invalid \"content.SKILL.md\" (must be a non-empty string)"
      ∈ contentErrors (some cv) := by
  unfold contentErrors
  rw [if_neg]
  · exact List.mem_append_left _
      (by rw [if_pos hbad]; exact List.mem_cons_self _ _)
  · simp [htr, hobj]

theorem qChoiceErrs_mem {q : JVal} (pfx : String)
    (hsel : jIsStr (jGet q "type") "select" = true)
    (hmiss : choicesMissing q = true) :
    ∃ e ∈ qChoiceErrs pfx q, strIncludes e "choices" = true := by
  refine ⟨pfx ++ ": \"choices\" required and must be non-empty for " ++
    jsStrOf (jGet q "type"), ?_, ?_⟩
  · unfold qChoiceErrs
    rw [if_pos (by rw [hsel]; rfl)]
    unfold choicesMissing at hmiss
    cases hch : jGet q "choices" with
    | none => exact List.mem_singleton.mpr rfl
    | some v =>
      cases v with
      | arr es =>
        cases es with
        | nil => exact List.mem_singleton.mpr rfl
        | cons c cs =>
          rw [hch] at hmiss
          simp at hmiss
      | str s => exact List.mem_singleton.mpr rfl
      | num n => exact List.mem_singleton.mpr rfl
      | bool b => exact List.mem_singleton.mpr rfl
      | null => exact List.mem_singleton.mpr rfl
      | obj fs2 => exact List.mem_singleton.mpr rfl
  · rw [String.append_assoc]
    apply strIncludes_append_right
    apply strIncludes_append_left
    decide

theorem questionChecks_obj_errs (i : Nat) (fs : List (String × JVal))
    (seen : List String) :
    (questionChecks i (.obj fs) seen).1 =
      qNameErrs ("questions[" ++ toString i ++ "]") (.obj fs) ++
        qMsgErrs ("questions[" ++ toString i ++ "]") (.obj fs) ++
        qTypeErrs ("questions[" ++ toString i ++ "]") (.obj fs) ++
        qChoiceErrs ("questions[" ++ toString i ++ "]") (.obj fs) ++
        (qWhenRes ("questions[" ++ toString i ++ "]") (.obj fs)).1 := rfl

theorem questionsFold_choices_mem :
    ∀ (items : List JVal) (i : Nat) (seen : List String) (q : JVal),
      q ∈ items → jIsStr (jGet q "type") "select" = true →
      choicesMissing q = true →
      ∃ e ∈ (questionsFold i items seen).1, strIncludes e "choices" = true := by
  intro items
  induction items with
  | nil =>
    intro i seen q hq _ _
    simp at hq
  | cons y items' ih =>
    intro i seen q hq hsel hmiss
    rcases List.mem_cons.mp hq with h | h
    · subst h
      have hob : ∃ gs, q = JVal.obj gs := by
        cases hj : jGet q "type" with
        | none => rw [hj] at hsel; exact absurd hsel (by simp [jIsStr])
        | some v => exact jGet_some_obj hj
      obtain ⟨gs, rfl⟩ := hob
      obtain ⟨e, he, hinc⟩ :=
        qChoiceErrs_mem ("questions[" ++ toString i ++ "]") hsel hmiss
      refine ⟨e, ?_, hinc⟩
      show e ∈ (questionChecks i (.obj gs) seen).1 ++
        (questionsFold (i + 1) items' (questionChecks i (.obj gs) seen).2.2).1
      apply List.mem_append_left
      rw [questionChecks_obj_errs]
      exact List.mem_append_left _ (List.mem_append_right _ he)
    · obtain ⟨e, he, hinc⟩ :=
        ih (i + 1) (questionChecks i y seen).2.2 q h hsel hmiss
      exact ⟨e, List.mem_append_right _ he, hinc⟩

theorem mem_validateErrors_content {raw : JVal} {e : String}
    (he : e ∈ contentErrors (jGet raw "content")) : e ∈ validateErrors raw := by
  unfold validateErrors
  exact List.mem_append_left _ (List.mem_append_left _
    (List.mem_append_right _ he))

theorem mem_validateErrors_questions {raw : JVal} {e : String}
    (he : e ∈ (questionsErrors (jGet raw "questions")).1) :
    e ∈ validateErrors raw := by
  unfold validateErrors
  exact List.mem_append_left _ (List.mem_append_right _ he)

theorem validate_obj_errors (fs : List (String × JVal)) (fp : String) :
    (validateCustomTemplate (.obj fs) fp).errors = validateErrors (.obj fs) :=
  rfl

theorem validate_obj_valid (fs : List (String × JVal)) (fp : String) :
    (validateCustomTemplate (.obj fs) fp).valid
      = (validateErrors (.obj fs)).isEmpty :=
  rfl

/-- C8 counterexample: a raw object with no `content` key at all lacks
`content["SKILL.md"]`; validation fails, but the single error mentions
`content`, not `SKILL.md` — the claimed SKILL.md-mentioning error is absent. -/
theorem C8_counterexample :
    (validateCustomTemplate
      (.obj [("name", .str "a"), ("description", .str "b")]) "t.yaml").valid
      = false ∧
    (validateCustomTemplate
      (.obj [("name", .str "a"), ("description", .str "b")]) "t.yaml").errors
      = ["Missing or invalid \"content\" field (must be an object)"] ∧
    (validateCustomTemplate
      (.obj [("name", .str "a"), ("description", .str "b")]) "t.yaml").errors.all
      (fun e => !(strIncludes e "SKILL.md")) = true := by
  exact ⟨by decide, by decide, by decide⟩

/-- C8 (amended): the validator never throws (it is a total function); when
the `content` field is an object lacking a non-empty string `SKILL.md`
entry, the result is invalid with an error mentioning `SKILL.md` (when
`content` is missing or not an object the error mentions `content`
instead); and a `select` question without a non-empty `choices` array makes
the result invalid with an error about the required `choices`. -/
theorem C8_amended_validator (raw raw2 : JVal) (fp fp2 : String) (cv : JVal)
    (items : List JVal) (q : JVal)
    (hc : jGet raw "content" = some cv)
    (htr : jTruthy (some cv) = true) (hobj : jIsObjectType cv = true)
    (hbad : needsStringErr (jGet cv "SKILL.md") = true)
    (hqs : jGet raw2 "questions" = some (.arr items))
    (hqm : q ∈ items)
    (hsel : jIsStr (jGet q "type") "select" = true)
    (hmiss : choicesMissing q = true) :
    ((validateCustomTemplate raw fp).valid = false ∧
      ∃ e ∈ (validateCustomTemplate raw fp).errors,
        strIncludes e "SKILL.md" = true) ∧
    ((validateCustomTemplate raw2 fp2).valid = false ∧
      ∃ e ∈ (validateCustomTemplate raw2 fp2).errors,
        strIncludes e "choices" = true) := by
  constructor
  · obtain ⟨fs, rfl⟩ := jGet_some_obj hc
    have hmem : "Missing or invalid \"content.SKILL.md\" (must be a non-empty string)"
        ∈ validateErrors (.obj fs) := by
      apply mem_validateErrors_content
      rw [hc]
      exact contentErrors_skill_mem htr hobj hbad
    constructor
    · rw [validate_obj_valid]
      exact isEmpty_false_of_mem hmem
    · rw [validate_obj_errors]
      exact ⟨_, hmem, by decide⟩
  · obtain ⟨fs2, rfl⟩ := jGet_some_obj hqs
    obtain ⟨e, he, hinc⟩ := questionsFold_choices_mem items 0 [] q hqm hsel hmiss
    have hmem : e ∈ validateErrors (.obj fs2) := by
      apply mem_validateErrors_questions
      rw [hqs]
      exact he
    constructor
    · rw [validate_obj_valid]
      exact isEmpty_false_of_mem hmem
    · rw [validate_obj_errors]
      exact ⟨e, hmem, hinc⟩

/-- C8 witness: a content object with an empty `SKILL.md` and a select
question with no `choices` both produce invalid results with the
corresponding errors. -/
theorem C8_amended_validator_witness :
    ((validateCustomTemplate
        (.obj [("name", .str "a"), ("description", .str "b"),
          ("content", .obj [("SKILL.md", .str "")])]) "t.yaml").valid = false ∧
      ∃ e ∈ (validateCustomTemplate
        (.obj [("name", .str "a"), ("description", .str "b"),
          ("content", .obj [("SKILL.md", .str "")])]) "t.yaml").errors,
        strIncludes e "SKILL.md" = true) ∧
    ((validateCustomTemplate
        (.obj [("name", .str "a"), ("description", .str "b"),
          ("content", .obj [("SKILL.md", .str "body")]),
          ("questions", .arr [.obj [("name", .str "q1"),
            ("message", .str "m"), ("type", .str "select")]])])
        "u.yaml").valid = false ∧
      ∃ e ∈ (validateCustomTemplate
        (.obj [("name", .str "a"), ("description", .str "b"),
          ("content", .obj [("SKILL.md", .str "body")]),
          ("questions", .arr [.obj [("name", .str "q1"),
            ("message", .str "m"), ("type", .str "select")]])])
        "u.yaml").errors,
        strIncludes e "choices" = true) :=
  C8_amended_validator
    (.obj [("name", .str "a"), ("description", .str "b"),
      ("content", .obj [("SKILL.md", .str "")])])
    (.obj [("name", .str "a"), ("description", .str "b"),
      ("content", .obj [("SKILL.md", .str "body")]),
      ("questions", .arr [.obj [("name", .str "q1"), ("message", .str "m"),
        ("type", .str "select")]])])
    "t.yaml" "u.yaml" (.obj [("SKILL.md", .str "")])
    [.obj [("name", .str "q1"), ("message", .str "m"), ("type", .str "select")]]
    (.obj [("name", .str "q1"), ("message", .str "m"), ("type", .str "select")])
    rfl rfl rfl (by decide) rfl (List.mem_singleton.mpr rfl) (by decide)
    (by decide)

end AISkill
